import Mathlib

/-!
Verification of the carrier-sales backend (`app/main.py`) against its
natural-language specification.  The Python source is shallowly embedded:
pure helper functions become Lean functions, the module-level globals
(`LOADS`, log files) become explicit parameters, and Python's dynamic
values are modelled by a JSON value type.
-/

set_option maxHeartbeats 1000000

namespace CarrierBackend

/-! ## Python string primitives -/

/-- Whitespace recognised by Python `str.strip()` (modelled on the ASCII
whitespace characters: space, tab, newline, vertical tab, form feed,
carriage return). -/
def pyIsSpace (c : Char) : Bool :=
  c = ' ' || c = '\t' || c = '\n' || c = '\x0b' || c = '\x0c' || c = '\r'

/-- Python `s.strip()`: remove leading and trailing whitespace. -/
def pyStrip (s : String) : String :=
  ⟨((s.data.dropWhile pyIsSpace).reverse.dropWhile pyIsSpace).reverse⟩

/-- Python `str.lower` on a character (modelled on the ASCII range, the
only case mapping exercised by this backend's data). -/
def pyLowerChar (c : Char) : Char :=
  if 'A' ≤ c && c ≤ 'Z' then Char.ofNat (c.toNat + 32) else c

/-- Python `s.lower()`. -/
def pyLower (s : String) : String :=
  ⟨s.data.map pyLowerChar⟩

/-- Python `s or ""` on an optional string (`None` and `""` are falsy). -/
def pyOrEmpty : Option String → String
  | none => ""
  | some s => s

/-- Python `str(x)` on an optional string: `str(None)` is `"None"`. -/
def pyStr : Option String → String
  | none => "None"
  | some s => s

/-- Python `sub in s` for strings: contiguous substring containment. -/
def pyIn (sub s : String) : Bool :=
  decide (sub.data <:+: s.data)

/-- `_norm` from `app/main.py`: `(s or "").strip().lower()`. -/
def _norm (s : Option String) : String :=
  pyLower (pyStrip (pyOrEmpty s))

/-! ## JSON values

Python's loosely-typed JSON data is modelled by `Json`.  Numbers carry
the exact decimal content of their source text (`JNum.int m` for integer
literals, `JNum.dec m e` for a literal with `e + 1` digits after the
decimal point and integer significand `m`); the backend never computes
with these numbers, it only carries them between serialisation and
parsing, so the decimal representation is a faithful model. -/

inductive JNum where
  | int (m : Int)
  | dec (m : Int) (e : Nat)
  deriving DecidableEq, Repr

inductive Json where
  | null
  | bool (b : Bool)
  | num (n : JNum)
  | str (s : String)
  | arr (elems : List Json)
  | obj (fields : List (String × Json))
  deriving Repr

mutual

def Json.beq : Json → Json → Bool
  | .null, .null => true
  | .bool a, .bool b => a == b
  | .num a, .num b => a == b
  | .str a, .str b => a == b
  | .arr a, .arr b => Json.beqList a b
  | .obj a, .obj b => Json.beqFields a b
  | _, _ => false

def Json.beqList : List Json → List Json → Bool
  | [], [] => true
  | a :: as, b :: bs => Json.beq a b && Json.beqList as bs
  | _, _ => false

def Json.beqFields : List (String × Json) → List (String × Json) → Bool
  | [], [] => true
  | (k, v) :: as, (k', v') :: bs => k == k' && Json.beq v v' && Json.beqFields as bs
  | _, _ => false

end

mutual

theorem Json.beq_iff : ∀ a b : Json, Json.beq a b = true ↔ a = b
  | .null, b => by cases b <;> simp [Json.beq]
  | .bool a, b => by cases b <;> simp [Json.beq]
  | .num a, b => by cases b <;> simp [Json.beq]
  | .str a, b => by cases b <;> simp [Json.beq]
  | .arr a, b => by
      cases b <;> simp [Json.beq]
      exact Json.beqList_iff a _
  | .obj a, b => by
      cases b <;> simp [Json.beq]
      exact Json.beqFields_iff a _

theorem Json.beqList_iff : ∀ a b : List Json, Json.beqList a b = true ↔ a = b
  | [], b => by cases b <;> simp [Json.beqList]
  | a :: as, b => by
      cases b with
      | nil => simp [Json.beqList]
      | cons b bs => simp [Json.beqList, Json.beq_iff a b, Json.beqList_iff as bs]

theorem Json.beqFields_iff : ∀ a b : List (String × Json), Json.beqFields a b = true ↔ a = b
  | [], b => by cases b <;> simp [Json.beqFields]
  | (k, v) :: as, b => by
      cases b with
      | nil => simp [Json.beqFields]
      | cons kv bs =>
          obtain ⟨k', v'⟩ := kv
          simp [Json.beqFields, Json.beq_iff v v', Json.beqFields_iff as bs, and_assoc]

end

instance : DecidableEq Json := fun a b => decidable_of_iff _ (Json.beq_iff a b)

/-- Python `d.get(k)` on an object's field list (dict keys are unique in
the source data; lookup returns the first binding). -/
def jget (fields : List (String × Json)) (k : String) : Option Json :=
  match fields with
  | [] => none
  | (k', v) :: rest => if k' = k then some v else jget rest k

/-! ## Load records and the filter (`_filter_loads`, lines 111-139)

A load record models the dictionaries held in `LOADS`.  The fields the
filter touches are strings in the data model (`origin`, `destination`,
`pickup_datetime`, `equipment_type`) plus the loosely typed
`loadboard_rate`; `none` models an absent key. -/

structure LoadRecord where
  load_id : Option String := none
  origin : Option String := none
  destination : Option String := none
  pickup_datetime : Option String := none
  delivery_datetime : Option String := none
  equipment_type : Option String := none
  loadboard_rate : Option Json := none
  notes : Option String := none
  deriving Repr, DecidableEq

/-- Python `float(x)` on the JSON values a `loadboard_rate` can hold:
numbers (and booleans) convert, anything else raises.  Conversion of an
`int` yields the corresponding float, printed with one fractional digit,
hence `JNum.dec (m * 10) 0`.  (Numeric strings also convert in Python;
the record stores in scope hold only numeric rates, and no claim depends
on the converted value, only on whether conversion succeeds—modelled
here as failure to keep `except: pass` reachable for strings.) -/
def pyFloat : Option Json → Option JNum
  | some (Json.num (JNum.int m)) => some (JNum.dec (m * 10) 0)
  | some (Json.num (JNum.dec m e)) => some (JNum.dec m e)
  | some (Json.bool b) => some (JNum.dec (if b then 10 else 0) 0)
  | _ => none

/-- Lines 131-135: `r2 = dict(r)` (shallow copy) followed by
`try: r2["loadboard_rate"] = float(...) except: pass`. -/
def coerceRate (r : LoadRecord) : LoadRecord :=
  match pyFloat r.loadboard_rate with
  | some n => { r with loadboard_rate := some (Json.num n) }
  | none => r

/-- The per-record match test of the loop body, lines 123-129.  The five
city/state/equipment criteria arrive already normalised (line 119);
`pickup_date` is used raw. -/
def matchRow (oc os dc ds : String) (pd : Option String) (et : String)
    (r : LoadRecord) : Bool :=
  let ro := _norm r.origin
  let rd := _norm r.destination
  (oc = "" || pyIn oc ro) &&
  (os = "" || pyIn os ro) &&
  (dc = "" || pyIn dc rd) &&
  (ds = "" || pyIn ds rd) &&
  (et = "" || et = _norm (some (pyStr r.equipment_type))) &&
  (match pd with
   | none => true
   | some p => p = "" || pyIn p (pyOrEmpty r.pickup_datetime))

/-- First component of the sort key, line 138:
`_norm(str(x.get("equipment_type"))) != et`. -/
def equipMismatch (et : String) (r : LoadRecord) : Bool :=
  _norm (some (pyStr r.equipment_type)) ≠ et

/-- Second component of the sort key, line 138:
`str(x.get("pickup_datetime") or "")`. -/
def pickupStr (r : LoadRecord) : String :=
  pyOrEmpty r.pickup_datetime

/-- The ranking preorder of line 138: lexicographic on
(equipment mismatch, pickup string), with `false < true` on booleans. -/
def rankLE (et : String) (a b : LoadRecord) : Prop :=
  (equipMismatch et a = false ∧ equipMismatch et b = true) ∨
  (equipMismatch et a = equipMismatch et b ∧ pickupStr a ≤ pickupStr b)

instance (et : String) : DecidableRel (rankLE et) := by
  intro a b
  unfold rankLE
  infer_instance

instance (et : String) : IsTotal LoadRecord (rankLE et) where
  total a b := by
    unfold rankLE
    rcases Bool.eq_false_or_eq_true (equipMismatch et a) with h1 | h1 <;>
      rcases Bool.eq_false_or_eq_true (equipMismatch et b) with h2 | h2 <;>
      rcases le_total (pickupStr a) (pickupStr b) with h3 | h3 <;>
      simp [h1, h2, h3]

instance (et : String) : IsTrans LoadRecord (rankLE et) where
  trans a b c hab hbc := by
    unfold rankLE at *
    rcases hab with ⟨ha, hb⟩ | ⟨hab, hpab⟩ <;>
      rcases hbc with ⟨hb', hc⟩ | ⟨hbc, hpbc⟩
    · rw [hb] at hb'; exact absurd hb' (by simp)
    · left; exact ⟨ha, hbc ▸ hb⟩
    · left; exact ⟨hab ▸ hb', hc⟩
    · right; exact ⟨hab.trans hbc, le_trans hpab hpbc⟩

/-- `_filter_loads` (lines 114-139), with the module-level global `LOADS`
made an explicit parameter.  Python's `list.sort` is a stable sort by the
key of line 138; insertion sort with the non-strict preorder `rankLE` is
also a stable sort by that key, so it computes the identical list. -/
def _filter_loads (loads : List LoadRecord)
    (origin_city origin_state destination_city destination_state
     pickup_date equipment_type : Option String) : List LoadRecord :=
  let oc := _norm origin_city
  let os := _norm origin_state
  let dc := _norm destination_city
  let ds := _norm destination_state
  let et := _norm equipment_type
  let out := (loads.filter (matchRow oc os dc ds pickup_date et)).map coerceRate
  (out.insertionSort (rankLE et)).take 3

/-! ## Concrete records used as witnesses -/

/-- First record of the built-in demo dataset (lines 79-93). -/
def demoLoad1 : LoadRecord :=
  { load_id := some "L-1001", origin := some "Chicago, IL", destination := some "Dallas, TX",
    pickup_datetime := some "2025-09-08T08:00:00-05:00",
    delivery_datetime := some "2025-09-09T16:00:00-05:00",
    equipment_type := some "Dry Van", loadboard_rate := some (Json.num (JNum.int 1450)),
    notes := some "No pallet exchange" }

/-- Second record of the built-in demo dataset (lines 94-108). -/
def demoLoad2 : LoadRecord :=
  { load_id := some "L-1002", origin := some "Atlanta, GA", destination := some "Orlando, FL",
    pickup_datetime := some "2025-09-08T07:00:00-05:00",
    delivery_datetime := some "2025-09-08T17:00:00-05:00",
    equipment_type := some "Reefer", loadboard_rate := some (Json.num (JNum.int 900)),
    notes := some "Keep at 36F" }

/-! ## Per-criterion match lemmas for the filter -/

theorem norm_none : _norm none = "" := rfl

/-- The substring-criterion test of lines 124-127, restated per supplied value. -/
theorem substr_guard_iff (c₀ : Option String) (x : String) :
    ((_norm c₀ = "" || pyIn (_norm c₀) x) = true) ↔
    (∀ c, c₀ = some c → _norm (some c) ≠ "" → pyIn (_norm (some c)) x = true) := by
  cases c₀ with
  | none => simp [norm_none]
  | some c =>
      by_cases h : _norm (some c) = "" <;> simp [h]

/-- The equipment-criterion test of line 128, restated per supplied value. -/
theorem equip_guard_iff (c₀ : Option String) (x : String) :
    ((_norm c₀ = "" || _norm c₀ = x) = true) ↔
    (∀ c, c₀ = some c → _norm (some c) ≠ "" → _norm (some c) = x) := by
  cases c₀ with
  | none => simp [norm_none]
  | some c =>
      by_cases h : _norm (some c) = "" <;> simp [h]

/-- The pickup-date test of line 129, restated per supplied value. -/
theorem pickup_guard_iff (pd : Option String) (x : String) :
    ((match pd with
      | none => true
      | some p => (p = "" || pyIn p x)) = true) ↔
    (∀ p, pd = some p → p ≠ "" → pyIn p x = true) := by
  cases pd with
  | none => simp
  | some p =>
      by_cases h : p = "" <;> simp [h]

/-- The loop's match test is the conjunction of the six per-criterion
predicates. -/
theorem matchRow_iff
    (oc₀ os₀ dc₀ ds₀ pd et₀ : Option String) (r : LoadRecord) :
    matchRow (_norm oc₀) (_norm os₀) (_norm dc₀) (_norm ds₀) pd (_norm et₀) r = true ↔
      (∀ c, oc₀ = some c → _norm (some c) ≠ "" → pyIn (_norm (some c)) (_norm r.origin) = true) ∧
      (∀ c, os₀ = some c → _norm (some c) ≠ "" → pyIn (_norm (some c)) (_norm r.origin) = true) ∧
      (∀ c, dc₀ = some c → _norm (some c) ≠ "" → pyIn (_norm (some c)) (_norm r.destination) = true) ∧
      (∀ c, ds₀ = some c → _norm (some c) ≠ "" → pyIn (_norm (some c)) (_norm r.destination) = true) ∧
      (∀ c, et₀ = some c → _norm (some c) ≠ "" →
         _norm (some c) = _norm (some (pyStr r.equipment_type))) ∧
      (∀ p, pd = some p → p ≠ "" → pyIn p (pyOrEmpty r.pickup_datetime) = true) := by
  unfold matchRow
  simp only [Bool.and_eq_true]
  rw [substr_guard_iff, substr_guard_iff, substr_guard_iff, substr_guard_iff,
    equip_guard_iff, pickup_guard_iff]
  tauto

/-! ## Carrier eligibility (`compute_verdict`, lines 158-167) -/

/-- Python truthiness of a JSON-decoded value. -/
def pyTruthy : Json → Bool
  | .null => false
  | .bool b => b
  | .num (JNum.int m) => m ≠ 0
  | .num (JNum.dec m _) => m ≠ 0
  | .str s => s ≠ ""
  | .arr l => !l.isEmpty
  | .obj l => !l.isEmpty

/-- Python truthiness of a `dict.get` result (`None` is falsy). -/
def pyTruthyOpt : Option Json → Bool
  | none => false
  | some j => pyTruthy j

/-- String content of a looked-up JSON value.  The source concatenates
`outOfServiceDate` into an f-string (line 166), which presupposes a
string value (a truthy non-string would raise a TypeError there); the
modelled domain therefore gives non-strings empty content, and the C6
theorem only speaks about string-valued dates. -/
def jsonStrVal : Option Json → String
  | some (.str s) => s
  | _ => ""

/-- Python `"; ".join(reasons)`. -/
def joinSemicolon : List String → String
  | [] => ""
  | [s] => s
  | s :: rest => s ++ "; " ++ joinSemicolon rest

/-- `compute_verdict` (lines 158-167), over the carrier dict's fields. -/
def compute_verdict (carrier : List (String × Json)) : Bool × String :=
  let allow := jget carrier "allowToOperate"
  let oos := jget carrier "outOfService"
  let oos_d := jget carrier "outOfServiceDate"
  let reasons : List String := []
  let ok := true
  let (reasons, ok) :=
    if allow = some (Json.str "N") then (reasons ++ ["allowToOperate=N"], false)
    else (reasons, ok)
  let (reasons, ok) :=
    if oos = some (Json.str "Y") then
      (reasons ++
        ["outOfService=Y" ++
          (if pyTruthyOpt oos_d then " since " ++ jsonStrVal oos_d else "")], false)
    else (reasons, ok)
  (ok, if ok then "Active: allowed to operate and not out of service"
       else (if joinSemicolon reasons = "" then "Not eligible" else joinSemicolon reasons))

/-- `sub` occurs contiguously inside `hay`. -/
def strContains (hay sub : String) : Prop := ∃ p q, hay = p ++ sub ++ q

/-- The reason fragment built on line 166 (proof-structuring shorthand). -/
def oosFrag (carrier : List (String × Json)) : String :=
  "outOfService=Y" ++
    (if pyTruthyOpt (jget carrier "outOfServiceDate") = true then
       " since " ++ jsonStrVal (jget carrier "outOfServiceDate") else "")

theorem append_ne_empty_left (s t : String) (hs : s.length ≠ 0) : s ++ t ≠ "" := by
  intro h
  have hl := congrArg String.length h
  rw [String.length_append] at hl
  have h0 : ("" : String).length = 0 := rfl
  omega

/-- Closed form of `compute_verdict` in the four trigger cases. -/
theorem compute_verdict_cases (carrier : List (String × Json)) :
    (jget carrier "allowToOperate" = some (Json.str "N") →
     jget carrier "outOfService" = some (Json.str "Y") →
       compute_verdict carrier = (false, "allowToOperate=N; " ++ oosFrag carrier)) ∧
    (jget carrier "allowToOperate" = some (Json.str "N") →
     jget carrier "outOfService" ≠ some (Json.str "Y") →
       compute_verdict carrier = (false, "allowToOperate=N")) ∧
    (jget carrier "allowToOperate" ≠ some (Json.str "N") →
     jget carrier "outOfService" = some (Json.str "Y") →
       compute_verdict carrier = (false, oosFrag carrier)) ∧
    (jget carrier "allowToOperate" ≠ some (Json.str "N") →
     jget carrier "outOfService" ≠ some (Json.str "Y") →
       compute_verdict carrier =
         (true, "Active: allowed to operate and not out of service")) := by
  refine ⟨fun ha ho => ?_, fun ha ho => ?_, fun ha ho => ?_, fun ha ho => ?_⟩
  · simp only [compute_verdict, ha, ho, ite_true, List.nil_append, joinSemicolon, oosFrag]
    rw [if_neg (append_ne_empty_left _ _ (by decide))]
    simp [← String.append_assoc]
  · simp only [compute_verdict, ha, ho, ite_true, ite_false, List.nil_append, joinSemicolon]
    rw [if_neg (by decide : ¬("allowToOperate=N" : String) = "")]
    rfl
  · simp only [compute_verdict, ha, ho, ite_true, ite_false, List.nil_append,
      joinSemicolon, oosFrag]
    rw [if_neg (append_ne_empty_left _ _ (by decide))]
    rfl
  · simp only [compute_verdict, ha, ho, ite_true, ite_false, List.nil_append, joinSemicolon]

/-- C1 counterexample: the claim makes `pickup_date` a case-insensitive
substring match against the record's normalized (trimmed, lower-cased)
pickup timestamp.  The code (line 129) compares the raw criterion against
the raw timestamp.  With the store holding only `demoLoad1` (pickup
timestamp "2025-09-08T08:00:00-05:00") and the single criterion
`pickup_date = "08t08"`, every supplied criterion matches under the
claim's rule (second conjunct), yet the filter includes no record at all
(first conjunct), refuting the claimed "if and only if". -/
theorem C1_counterexample :
    _filter_loads [demoLoad1] none none none none (some "08t08") none = [] ∧
    pyIn (pyLower (pyStrip "08t08")) (_norm demoLoad1.pickup_datetime) = true := by
  constructor
  · rfl
  · decide

/-- C1 (amended): membership in the filter's match stage (whose
rate-coerced, rank-sorted, 3-truncated image is exactly what
`_filter_loads` returns — first conjunct, definitional) holds iff every
supplied, non-blank-after-normalization criterion matches under its rule:
origin_city/origin_state normalized substrings of the normalized origin,
destination_city/destination_state likewise against the destination,
equipment_type a normalized exact match, and pickup_date a *raw,
case-sensitive* substring of the raw pickup timestamp (a pure conjunction
of independent per-field predicates; criteria that normalize to the empty
string impose no constraint). -/
theorem C1_match_iff (loads : List LoadRecord)
    (origin_city origin_state destination_city destination_state
     pickup_date equipment_type : Option String) (r : LoadRecord) :
    (_filter_loads loads origin_city origin_state destination_city destination_state
        pickup_date equipment_type =
      ((((loads.filter (matchRow (_norm origin_city) (_norm origin_state)
          (_norm destination_city) (_norm destination_state) pickup_date
          (_norm equipment_type))).map coerceRate).insertionSort
          (rankLE (_norm equipment_type))).take 3)) ∧
    (r ∈ loads.filter (matchRow (_norm origin_city) (_norm origin_state)
        (_norm destination_city) (_norm destination_state) pickup_date
        (_norm equipment_type)) ↔
      r ∈ loads ∧
      ((∀ c, origin_city = some c → _norm (some c) ≠ "" →
          pyIn (_norm (some c)) (_norm r.origin) = true) ∧
       (∀ c, origin_state = some c → _norm (some c) ≠ "" →
          pyIn (_norm (some c)) (_norm r.origin) = true) ∧
       (∀ c, destination_city = some c → _norm (some c) ≠ "" →
          pyIn (_norm (some c)) (_norm r.destination) = true) ∧
       (∀ c, destination_state = some c → _norm (some c) ≠ "" →
          pyIn (_norm (some c)) (_norm r.destination) = true) ∧
       (∀ c, equipment_type = some c → _norm (some c) ≠ "" →
          _norm (some c) = _norm (some (pyStr r.equipment_type))) ∧
       (∀ p, pickup_date = some p → p ≠ "" →
          pyIn p (pyOrEmpty r.pickup_datetime) = true))) := by
  refine ⟨rfl, ?_⟩
  rw [List.mem_filter, matchRow_iff]

/-- C2: every list the filter returns is ranked by the line-138 key:
for any two returned records, the earlier one either is an exact
(case-insensitive) equipment match while the later one is not, or both
have the same equipment-match status and the earlier one's raw pickup
timestamp string is lexicographically ≤ the later one's (stability of
the ordering on equal match status). -/
theorem C2_ranking (loads : List LoadRecord)
    (origin_city origin_state destination_city destination_state
     pickup_date equipment_type : Option String) :
    List.Pairwise (rankLE (_norm equipment_type))
      (_filter_loads loads origin_city origin_state destination_city
        destination_state pickup_date equipment_type) := by
  apply List.Pairwise.sublist (List.take_sublist _ _)
  exact List.sorted_insertionSort (rankLE (_norm equipment_type)) _

/-- C3: the filter returns at most 3 records; it equals the sorted
matching sequence truncated to its first 3 elements; and when no record
matches it returns the empty sequence (no error). -/
theorem C3_truncation (loads : List LoadRecord)
    (origin_city origin_state destination_city destination_state
     pickup_date equipment_type : Option String) :
    (_filter_loads loads origin_city origin_state destination_city
        destination_state pickup_date equipment_type).length ≤ 3 ∧
    (_filter_loads loads origin_city origin_state destination_city destination_state
        pickup_date equipment_type =
      ((((loads.filter (matchRow (_norm origin_city) (_norm origin_state)
          (_norm destination_city) (_norm destination_state) pickup_date
          (_norm equipment_type))).map coerceRate).insertionSort
          (rankLE (_norm equipment_type))).take 3)) ∧
    ((∀ r ∈ loads, matchRow (_norm origin_city) (_norm origin_state)
        (_norm destination_city) (_norm destination_state) pickup_date
        (_norm equipment_type) r = false) →
      _filter_loads loads origin_city origin_state destination_city
        destination_state pickup_date equipment_type = []) := by
  refine ⟨?_, rfl, ?_⟩
  · exact List.length_take_le 3 _
  · intro h
    have hnil : loads.filter (matchRow (_norm origin_city) (_norm origin_state)
        (_norm destination_city) (_norm destination_state) pickup_date
        (_norm equipment_type)) = [] := by
      rw [List.filter_eq_nil_iff]
      intro a ha
      simp [h a ha]
    unfold _filter_loads
    dsimp only
    rw [hnil]
    rfl

/-- A criterion value that Python's `strip` erases: absent, empty, or
whitespace-only. -/
def blankCrit : Option String → Prop
  | none => True
  | some s => ∀ c ∈ s.data, pyIsSpace c = true

instance : DecidablePred blankCrit := by
  intro w
  cases w <;> unfold blankCrit <;> infer_instance

theorem norm_blank {w : Option String} (h : blankCrit w) : _norm w = "" := by
  cases w with
  | none => rfl
  | some s =>
      unfold blankCrit at h
      have hs : pyStrip s = "" := by
        unfold pyStrip
        have h1 : s.data.dropWhile pyIsSpace = [] := List.dropWhile_eq_nil_iff.mpr h
        rw [h1]
        rfl
      unfold _norm pyOrEmpty
      rw [hs]
      rfl

/-- C10: a criterion supplied as an empty or whitespace-only string is
treated exactly like an absent criterion for the five normalized
criteria (origin_city, origin_state, destination_city,
destination_state, equipment_type); `pickup_date` — which the code
compares without normalization — is held fixed on both sides. -/
theorem C10_blank_criteria (loads : List LoadRecord)
    (w1 w2 w3 w4 w5 pickup_date : Option String)
    (h1 : blankCrit w1) (h2 : blankCrit w2) (h3 : blankCrit w3)
    (h4 : blankCrit w4) (h5 : blankCrit w5) :
    _filter_loads loads w1 w2 w3 w4 pickup_date w5 =
      _filter_loads loads none none none none pickup_date none := by
  unfold _filter_loads
  rw [norm_blank h1, norm_blank h2, norm_blank h3, norm_blank h4, norm_blank h5,
    norm_none]

/-- C10 witness: on the two-record demo store, supplying whitespace-only
strings for all five normalized criteria returns the same list as
supplying none of them. -/
theorem C10_blank_criteria_witness :
    blankCrit (some "   ") ∧
    _filter_loads [demoLoad1, demoLoad2] (some "   ") (some " ") (some "\t")
        (some "") (some "   ") (some " \t ") =
      _filter_loads [demoLoad1, demoLoad2] none none none none (some "   ") none :=
  ⟨by decide,
   C10_blank_criteria [demoLoad1, demoLoad2] (some "   ") (some " ") (some "\t")
     (some "") (some " \t ") (some "   ")
     (by decide) (by decide) (by decide) (by decide) (by decide)⟩

/-- C6: the verdict is not-eligible with "allowToOperate=N" in the
reason when `allowToOperate` is "N"; not-eligible with "outOfService=Y"
(plus " since <date>" when a non-empty string date is present) when
`outOfService` is "Y"; both fragments joined by "; " when both trigger;
and `(true, "Active: allowed to operate and not out of service")` when
neither triggers — in particular `compute_verdict` is total over carrier
records and a record lacking both keys is eligible. -/
theorem C6_verdict (carrier : List (String × Json)) :
    (jget carrier "allowToOperate" = some (Json.str "N") →
      (compute_verdict carrier).1 = false ∧
      strContains (compute_verdict carrier).2 "allowToOperate=N") ∧
    (jget carrier "outOfService" = some (Json.str "Y") →
      (compute_verdict carrier).1 = false ∧
      strContains (compute_verdict carrier).2 "outOfService=Y") ∧
    (∀ d, jget carrier "outOfService" = some (Json.str "Y") →
       jget carrier "outOfServiceDate" = some (Json.str d) → d ≠ "" →
       strContains (compute_verdict carrier).2 ("outOfService=Y since " ++ d)) ∧
    (jget carrier "allowToOperate" = some (Json.str "N") →
     jget carrier "outOfService" = some (Json.str "Y") →
      (compute_verdict carrier).2 = "allowToOperate=N; " ++ oosFrag carrier) ∧
    (jget carrier "allowToOperate" ≠ some (Json.str "N") →
     jget carrier "outOfService" ≠ some (Json.str "Y") →
      compute_verdict carrier = (true, "Active: allowed to operate and not out of service")) ∧
    (jget carrier "allowToOperate" = none → jget carrier "outOfService" = none →
      compute_verdict carrier = (true, "Active: allowed to operate and not out of service")) := by
  obtain ⟨hNY, hNn, hnY, hnn⟩ := compute_verdict_cases carrier
  refine ⟨fun ha => ?_, fun ho => ?_, fun d ho hd hne => ?_, fun ha ho => ?_,
    fun ha ho => hnn ha ho, fun ha ho => hnn (by simp [ha]) (by simp [ho])⟩
  · by_cases ho : jget carrier "outOfService" = some (Json.str "Y")
    · rw [hNY ha ho]
      exact ⟨rfl, "", "; " ++ oosFrag carrier, by simp [← String.append_assoc]⟩
    · rw [hNn ha ho]
      exact ⟨rfl, "", "", by simp⟩
  · by_cases ha : jget carrier "allowToOperate" = some (Json.str "N")
    · rw [hNY ha ho]
      refine ⟨rfl, "allowToOperate=N; ",
        (if pyTruthyOpt (jget carrier "outOfServiceDate") = true then
           " since " ++ jsonStrVal (jget carrier "outOfServiceDate") else ""), ?_⟩
      unfold oosFrag
      simp [← String.append_assoc]
    · rw [hnY ha ho]
      refine ⟨rfl, "",
        (if pyTruthyOpt (jget carrier "outOfServiceDate") = true then
           " since " ++ jsonStrVal (jget carrier "outOfServiceDate") else ""), ?_⟩
      unfold oosFrag
      simp [← String.append_assoc]
  · have hfrag : oosFrag carrier = "outOfService=Y since " ++ d := by
      unfold oosFrag
      rw [hd]
      rw [if_pos (by simp [pyTruthyOpt, pyTruthy, hne])]
      simp [jsonStrVal, ← String.append_assoc]
    by_cases ha : jget carrier "allowToOperate" = some (Json.str "N")
    · rw [hNY ha ho, hfrag]
      exact ⟨"allowToOperate=N; ", "", by simp [← String.append_assoc]⟩
    · rw [hnY ha ho, hfrag]
      exact ⟨"", "", by simp [← String.append_assoc]⟩
  · rw [hNY ha ho]

/-- The carrier record of the spec's §8 example:
`{"allowToOperate":"N","outOfService":"Y","outOfServiceDate":"2024-01-01"}`. -/
def oosCarrier : List (String × Json) :=
  [("allowToOperate", Json.str "N"), ("outOfService", Json.str "Y"),
   ("outOfServiceDate", Json.str "2024-01-01")]

/-- C6 witness: on the spec's example record the verdict is not eligible,
the reason contains both fragments, and equals their "; "-join. -/
theorem C6_verdict_witness :
    (compute_verdict oosCarrier).1 = false ∧
    strContains (compute_verdict oosCarrier).2 "allowToOperate=N" ∧
    strContains (compute_verdict oosCarrier).2 ("outOfService=Y since " ++ "2024-01-01") ∧
    (compute_verdict oosCarrier).2 = "allowToOperate=N; " ++ oosFrag oosCarrier :=
  ⟨((C6_verdict oosCarrier).1 rfl).1,
   ((C6_verdict oosCarrier).1 rfl).2,
   (C6_verdict oosCarrier).2.2.1 "2024-01-01" rfl rfl (by decide),
   (C6_verdict oosCarrier).2.2.2.1 rfl rfl⟩

/-! ## Carrier extraction (`choose_carrier`, lines 142-156) -/

/-- Lines 150 and 154: a dict item whose `"carrier"` value is a dict. -/
def carrierOfItem : Json → Option (List (String × Json))
  | .obj fields =>
      match jget fields "carrier" with
      | some (.obj c) => some c
      | _ => none
  | _ => none

/-- The inner `for item in v` scan of lines 149-151 (also the
`for item in payload` scan of lines 153-155). -/
def firstCarrierInList : List Json → Option (List (String × Json))
  | [] => none
  | item :: rest =>
      match carrierOfItem item with
      | some c => some c
      | none => firstCarrierInList rest

/-- The `for v in payload.values()` scan of lines 147-151 (values in
dict insertion order; non-list values are skipped). -/
def firstCarrierInValues : List (String × Json) → Option (List (String × Json))
  | [] => none
  | (_, v) :: rest =>
      match v with
      | .arr items =>
          match firstCarrierInList items with
          | some c => some c
          | none => firstCarrierInValues rest
      | _ => firstCarrierInValues rest

/-- `choose_carrier` (lines 142-156). -/
def choose_carrier : Json → Option (List (String × Json))
  | .obj fields =>
      match jget fields "carrier" with
      | some (.obj c) => some c
      | _ => firstCarrierInValues fields
  | .arr items => firstCarrierInList items
  | _ => none

/-- Modelled from the claim's words: a `carrier` object at the payload's
top level. -/
def topLevelCarrier : Json → Option (List (String × Json))
  | .obj fields =>
      match jget fields "carrier" with
      | some (.obj c) => some c
      | _ => none
  | _ => none

/-- Modelled from the claim's words: a `carrier` object inside some dict
element of some list-valued field of the payload (first match in field
order, then element order). -/
def listFieldCarrier : Json → Option (List (String × Json))
  | .obj fields =>
      fields.findSome? fun kv =>
        match kv.2 with
        | .arr items => items.findSome? carrierOfItem
        | _ => none
  | _ => none

/-- Modelled from the claim's words: if the payload is itself a list, a
`carrier` object inside one of its dict elements. -/
def selfListCarrier : Json → Option (List (String × Json))
  | .arr items => items.findSome? carrierOfItem
  | _ => none

/-- Modelled from the claim's words: the first carrier found by the three
ordered checks. -/
def carrierSpec (payload : Json) : Option (List (String × Json)) :=
  (topLevelCarrier payload).orElse fun _ =>
    (listFieldCarrier payload).orElse fun _ => selfListCarrier payload

/-- Lines 185-188 of the `find_carrier` endpoint: `if not carrier:` —
a `None` result, or an empty carrier dict (also falsy in Python), takes
the 404 branch, modelled as `none`. -/
def find_carrier_extract (data : Json) : Option (List (String × Json)) :=
  match choose_carrier data with
  | none => none
  | some c => if c.isEmpty then none else some c

theorem firstCarrierInList_eq (items : List Json) :
    firstCarrierInList items = items.findSome? carrierOfItem := by
  induction items with
  | nil => rfl
  | cons a rest ih =>
      rw [firstCarrierInList, List.findSome?_cons, ih]
      cases carrierOfItem a <;> rfl

theorem firstCarrierInValues_eq (fields : List (String × Json)) :
    firstCarrierInValues fields =
      fields.findSome? (fun kv =>
        match kv.2 with
        | .arr items => items.findSome? carrierOfItem
        | _ => none) := by
  induction fields with
  | nil => rfl
  | cons kv rest ih =>
      obtain ⟨k, v⟩ := kv
      cases v with
      | arr items =>
          simp only [firstCarrierInValues, List.findSome?_cons, ih, firstCarrierInList_eq]
          cases List.findSome? carrierOfItem items <;> rfl
      | null => simp only [firstCarrierInValues, List.findSome?_cons, ih]
      | bool b => simp only [firstCarrierInValues, List.findSome?_cons, ih]
      | num n => simp only [firstCarrierInValues, List.findSome?_cons, ih]
      | str s => simp only [firstCarrierInValues, List.findSome?_cons, ih]
      | obj fs => simp only [firstCarrierInValues, List.findSome?_cons, ih]

/-- C7: `choose_carrier` returns exactly the first carrier object under
the claim's ordered checks — a `carrier` dict at the payload's top
level, else one inside a dict element of a list-valued field (in field
order, then element order), else — for a list payload — one inside a
dict element of the list; and when no such object exists the endpoint's
extraction yields the not-found outcome surfaced as a 404. -/
theorem orElse_some {α} (a : α) (f : Unit → Option α) : (some a).orElse f = some a := rfl

theorem orElse_unit_none {α} (f : Unit → Option α) : (Option.orElse none f) = f () := rfl

theorem orElse_none_right {α} (x : Option α) : (x.orElse fun _ => none) = x := by
  cases x <;> rfl

theorem C7_extraction (payload : Json) :
    choose_carrier payload = carrierSpec payload ∧
    (carrierSpec payload = none → find_carrier_extract payload = none) := by
  have h : choose_carrier payload = carrierSpec payload := by
    cases payload with
    | obj fields =>
        unfold choose_carrier carrierSpec topLevelCarrier listFieldCarrier selfListCarrier
        cases hc : jget fields "carrier" with
        | none =>
            simp only [hc, firstCarrierInValues_eq, orElse_some, orElse_unit_none,
              orElse_none_right]
        | some v =>
            cases v <;>
              simp only [hc, firstCarrierInValues_eq, orElse_some, orElse_unit_none,
                orElse_none_right]
    | arr items =>
        unfold choose_carrier carrierSpec topLevelCarrier listFieldCarrier selfListCarrier
        simp only [firstCarrierInList_eq, orElse_unit_none]
    | null => rfl
    | bool b => rfl
    | num n => rfl
    | str s => rfl
  refine ⟨h, fun hn => ?_⟩
  unfold find_carrier_extract
  rw [h, hn]

/-! ## JSON serialisation (`json.dumps(..., separators=(",", ":"))`)

The logger writes `json.dumps(body.dict(), separators=(",",":"))`
(lines 219 and 229): compact separators, `ensure_ascii=True` (the
default), so every character outside printable ASCII is written as a
`\uXXXX` escape (two of them — a surrogate pair — above U+FFFF). -/

/-- Decimal digit character. -/
def natDigitChar : Nat → Char
  | 8 => '8' | 7 => '7' | 6 => '6' | 5 => '5' | 4 => '4'
  | 3 => '3' | 2 => '2' | 1 => '1' | 0 => '0' | _ => '9'

/-- Lower-case hex digit character (as CPython's `\uXXXX` escapes emit). -/
def hexDigitChar : Nat → Char
  | 14 => 'e' | 13 => 'd' | 12 => 'c' | 11 => 'b' | 10 => 'a'
  | 9 => '9' | 8 => '8' | 7 => '7' | 6 => '6' | 5 => '5'
  | 4 => '4' | 3 => '3' | 2 => '2' | 1 => '1' | 0 => '0' | _ => 'f'

/-- Decimal digits of `n`, most significant first. -/
def natDigits (n : Nat) : List Char :=
  if n < 10 then [natDigitChar n]
  else natDigits (n / 10) ++ [natDigitChar (n % 10)]
termination_by n
decreasing_by exact Nat.div_lt_self (by omega) (by omega)

/-- Digits of an integer with optional leading minus sign. -/
def intDigits (m : Int) : List Char :=
  if m < 0 then '-' :: natDigits m.natAbs else natDigits m.natAbs

/-- Left-pad with `'0'` to length `k`. -/
def padZeros (l : List Char) (k : Nat) : List Char :=
  List.replicate (k - l.length) '0' ++ l

/-- Serialisation of a number: integers print their digits, decimals
print sign, integer part, `'.'`, and exactly `e + 1` fractional digits
(the fixed-point form CPython's float repr gives the backend's data). -/
def dumpJNum : JNum → List Char
  | .int m => intDigits m
  | .dec m e =>
      let a := m.natAbs
      let ip := a / 10 ^ (e + 1)
      let fp := a % 10 ^ (e + 1)
      (if m < 0 then ['-'] else []) ++ natDigits ip ++ '.' :: padZeros (natDigits fp) (e + 1)

/-- Four-digit lower-case hex of `n < 0x10000`. -/
def toHex4 (n : Nat) : List Char :=
  [hexDigitChar (n / 4096 % 16), hexDigitChar (n / 256 % 16),
   hexDigitChar (n / 16 % 16), hexDigitChar (n % 16)]

/-- CPython's `ensure_ascii` escaping of one character inside a JSON
string: `"` and `\` and the five short control escapes specially, other
printable ASCII literally, everything else as `\uXXXX` (surrogate pairs
above U+FFFF). -/
def escapeChar (c : Char) : List Char :=
  if c = '"' then ['\\', '"']
  else if c = '\\' then ['\\', '\\']
  else if c = '\n' then ['\\', 'n']
  else if c = '\t' then ['\\', 't']
  else if c = '\r' then ['\\', 'r']
  else if c = '\x08' then ['\\', 'b']
  else if c = '\x0c' then ['\\', 'f']
  else if 0x20 ≤ c.toNat ∧ c.toNat ≤ 0x7e then [c]
  else if c.toNat < 0x10000 then '\\' :: 'u' :: toHex4 c.toNat
  else
    let v := c.toNat - 0x10000
    ('\\' :: 'u' :: toHex4 (0xD800 + v / 0x400)) ++
      ('\\' :: 'u' :: toHex4 (0xDC00 + v % 0x400))

/-- A JSON string literal: quote, escaped characters, quote. -/
def dumpString (s : String) : List Char :=
  '"' :: (s.data.map escapeChar).flatten ++ ['"']

mutual

/-- `json.dumps` with separators `(",", ":")` (no whitespace). -/
def dumpJson : Json → List Char
  | .obj kvs => '\x7b' :: dumpFields kvs ++ ['\x7d']
  | .arr xs => '[' :: dumpElems xs ++ [']']
  | .str s => dumpString s
  | .num n => dumpJNum n
  | .bool false => ['f', 'a', 'l', 's', 'e']
  | .bool true => ['t', 'r', 'u', 'e']
  | .null => ['n', 'u', 'l', 'l']

def dumpElems : List Json → List Char
  | [] => []
  | [x] => dumpJson x
  | x :: xs => dumpJson x ++ ',' :: dumpElems xs

def dumpFields : List (String × Json) → List Char
  | [] => []
  | [(k, v)] => dumpString k ++ ':' :: dumpJson v
  | (k, v) :: kvs => dumpString k ++ ':' :: dumpJson v ++ ',' :: dumpFields kvs

end

/-! ## JSON parsing (`json.loads`)

A recursive-descent parser for the JSON grammar as CPython's `json`
module reads it back: whitespace (space, tab, newline, carriage return)
around values, strict strings (raw control characters rejected), the
standard escapes including `\uXXXX` with surrogate-pair recombination
(lone surrogates, unrepresentable in `Char`, are rejected), and numbers
in the fixed-point forms the serialiser above emits (exponent forms and
the non-standard NaN/Infinity literals are outside the model).  Value
recursion is fuel-bounded; `json_loads` supplies ample fuel. -/

def jsonWs (c : Char) : Bool :=
  c = ' ' || c = '\t' || c = '\n' || c = '\r'

def skipWs : List Char → List Char
  | [] => []
  | c :: rest => if jsonWs c then skipWs rest else c :: rest

def digitVal : Char → Option Nat
  | '9' => some 9 | '8' => some 8 | '7' => some 7 | '6' => some 6 | '5' => some 5
  | '4' => some 4 | '3' => some 3 | '2' => some 2 | '1' => some 1 | '0' => some 0
  | _ => none

def hexVal : Char → Option Nat
  | 'f' => some 15 | 'e' => some 14 | 'd' => some 13 | 'c' => some 12
  | 'b' => some 11 | 'a' => some 10
  | 'F' => some 15 | 'E' => some 14 | 'D' => some 13 | 'C' => some 12
  | 'B' => some 11 | 'A' => some 10
  | '9' => some 9 | '8' => some 8 | '7' => some 7 | '6' => some 6 | '5' => some 5
  | '4' => some 4 | '3' => some 3 | '2' => some 2 | '1' => some 1 | '0' => some 0
  | _ => none

def hex4 (h1 h2 h3 h4 : Char) : Option Nat := do
  let a ← hexVal h1
  let b ← hexVal h2
  let c ← hexVal h3
  let d ← hexVal h4
  some (a * 4096 + b * 256 + c * 16 + d)

/-- The short escapes `json.loads` understands after a backslash. -/
def unescapeShort : Char → Option Char
  | '"' => some '"'
  | '\\' => some '\\'
  | '/' => some '/'
  | 'b' => some '\x08'
  | 'f' => some '\x0c'
  | 'n' => some '\n'
  | 'r' => some '\r'
  | 't' => some '\t'
  | _ => none

/-- Decoding of the low half of a `\uXXXX\uXXXX` surrogate pair
(`n` is the already-read high surrogate). -/
def decodeLowSurrogate (n : Nat) (l : List Char) : Option (Char × List Char) :=
  match l with
  | '\\' :: 'u' :: g1 :: g2 :: g3 :: g4 :: rest3 =>
      (match hex4 g1 g2 g3 g4 with
       | none => none
       | some m =>
           if 0xDC00 ≤ m ∧ m ≤ 0xDFFF then
             some (Char.ofNat (0x10000 + (n - 0xD800) * 0x400 + (m - 0xDC00)), rest3)
           else none)
  | _ => none

/-- Decoding of a `\uXXXX` escape, the input starting right after `\u`:
a high surrogate must be followed by a low one (pair recombined), a lone
surrogate is rejected (unrepresentable in `Char`), anything else is the
character itself. -/
def decodeEscapeU (l : List Char) : Option (Char × List Char) :=
  match l with
  | h1 :: h2 :: h3 :: h4 :: rest2 =>
      (match hex4 h1 h2 h3 h4 with
       | none => none
       | some n =>
           if 0xD800 ≤ n ∧ n ≤ 0xDBFF then decodeLowSurrogate n rest2
           else if 0xDC00 ≤ n ∧ n ≤ 0xDFFF then none
           else some (Char.ofNat n, rest2))
  | _ => none

/-- Body of a JSON string literal after the opening quote (fuel-bounded;
one unit of fuel per decoded character, so the input length is ample):
returns the decoded characters and the input after the closing quote.
Raw control characters are rejected (strict mode). -/
def parseStringGo : Nat → List Char → Option (List Char × List Char)
  | 0, _ => none
  | _ + 1, [] => none
  | fuel + 1, c :: rest =>
      if c = '"' then some ([], rest)
      else if c = '\\' then
        match rest with
        | 'u' :: us =>
            (match decodeEscapeU us with
             | some pr => (parseStringGo fuel pr.2).map fun p => (pr.1 :: p.1, p.2)
             | none => none)
        | c2 :: rest2 =>
            (match unescapeShort c2 with
             | some d => (parseStringGo fuel rest2).map fun p => (d :: p.1, p.2)
             | none => none)
        | [] => none
      else if c.toNat < 0x20 then none
      else (parseStringGo fuel rest).map fun p => (c :: p.1, p.2)

/-- Body of a JSON string literal after the opening quote. -/
def parseStringBody (l : List Char) : Option (List Char × List Char) :=
  parseStringGo l.length l

/-- Maximal run of decimal digits. -/
def takeDigits : List Char → List Char × List Char
  | [] => ([], [])
  | c :: rest =>
      if (digitVal c).isSome then
        let (ds, r) := takeDigits rest
        (c :: ds, r)
      else ([], c :: rest)

def digitsToNat (l : List Char) : Nat :=
  l.foldl (fun acc c => acc * 10 + (digitVal c).getD 0) 0

def applySign : Bool → Nat → Int
  | true, n => -(n : Int)
  | false, n => (n : Int)

/-- Digits, fraction, and terminator of a JSON number after the
optional sign. -/
def parseUnsigned (neg : Bool) (r0 : List Char) : Option (JNum × List Char) :=
  let p := takeDigits r0
  if p.1 = [] then none
  else if p.1.length > 1 ∧ p.1.head? = some '0' then none
  else
    match p.2 with
    | [] => some (.int (applySign neg (digitsToNat p.1)), [])
    | c1 :: r2 =>
        if c1 = '.' then
          let q := takeDigits r2
          if q.1 = [] then none
          else some (.dec (applySign neg (digitsToNat (p.1 ++ q.1))) (q.1.length - 1), q.2)
        else some (.int (applySign neg (digitsToNat p.1)), c1 :: r2)

/-- A JSON number: optional minus, integer part with no leading zeros,
optional fractional part with at least one digit. -/
def parseNumber (input : List Char) : Option (JNum × List Char) :=
  match input with
  | [] => none
  | c0 :: t0 => if c0 = '-' then parseUnsigned true t0 else parseUnsigned false (c0 :: t0)

mutual

def parseValue : Nat → List Char → Option (Json × List Char)
  | 0, _ => none
  | fuel + 1, input =>
      match skipWs input with
      | [] => none
      | c :: rest =>
          if c = 'n' then
            match rest with
            | 'u' :: 'l' :: 'l' :: r => some (.null, r)
            | _ => none
          else if c = 't' then
            match rest with
            | 'r' :: 'u' :: 'e' :: r => some (.bool true, r)
            | _ => none
          else if c = 'f' then
            match rest with
            | 'a' :: 'l' :: 's' :: 'e' :: r => some (.bool false, r)
            | _ => none
          else if c = '"' then
            match parseStringBody rest with
            | some p => some (.str (String.mk p.1), p.2)
            | none => none
          else if c = '[' then
            match skipWs rest with
            | [] => none
            | c2 :: r2 =>
                if c2 = ']' then some (.arr [], r2)
                else
                  match parseElems fuel (c2 :: r2) with
                  | some p => some (.arr p.1, p.2)
                  | none => none
          else if c = '\x7b' then
            match skipWs rest with
            | [] => none
            | c2 :: r2 =>
                if c2 = '\x7d' then some (.obj [], r2)
                else
                  match parseMembers fuel (c2 :: r2) with
                  | some p => some (.obj p.1, p.2)
                  | none => none
          else
            match parseNumber (c :: rest) with
            | some p => some (.num p.1, p.2)
            | none => none

def parseElems : Nat → List Char → Option (List Json × List Char)
  | 0, _ => none
  | fuel + 1, input =>
      match parseValue fuel input with
      | some p =>
          (match skipWs p.2 with
           | [] => none
           | c :: r2 =>
               if c = ',' then
                 match parseElems fuel r2 with
                 | some q => some (p.1 :: q.1, q.2)
                 | none => none
               else if c = ']' then some ([p.1], r2)
               else none)
      | none => none

def parseMembers : Nat → List Char → Option (List (String × Json) × List Char)
  | 0, _ => none
  | fuel + 1, input =>
      match input with
      | '"' :: rest =>
          (match parseStringBody rest with
           | some k =>
               (match skipWs k.2 with
                | [] => none
                | c :: r2 =>
                    if c = ':' then
                      match parseValue fuel r2 with
                      | some v =>
                          (match skipWs v.2 with
                           | [] => none
                           | c2 :: r4 =>
                               if c2 = ',' then
                                 match parseMembers fuel (skipWs r4) with
                                 | some q => some ((String.mk k.1, v.1) :: q.1, q.2)
                                 | none => none
                               else if c2 = '\x7d' then some ([(String.mk k.1, v.1)], r4)
                               else none)
                      | none => none
                    else none)
           | none => none)
      | _ => none

end

/-- `json.loads`: parse one value, allow surrounding whitespace, require
end of input. -/
def json_loads (s : String) : Option Json :=
  match parseValue (s.data.length + 1) s.data with
  | some (v, rest) => if skipWs rest = [] then some v else none
  | none => none

/-! ## Round-trip lemmas: digits and numbers -/

theorem digitVal_natDigitChar {d : Nat} (h : d < 10) :
    digitVal (natDigitChar d) = some d := by
  interval_cases d <;> rfl

theorem hexVal_hexDigitChar {d : Nat} (h : d < 16) :
    hexVal (hexDigitChar d) = some d := by
  interval_cases d <;> rfl

theorem natDigits_ne_nil (n : Nat) : natDigits n ≠ [] := by
  rw [natDigits]
  split
  · simp
  · simp

theorem natDigits_digits (n : Nat) : ∀ c ∈ natDigits n, (digitVal c).isSome := by
  induction n using Nat.strong_induction_on with
  | _ n ih =>
      rw [natDigits]
      split
      · intro c hc
        rename_i h
        simp only [List.mem_singleton] at hc
        subst hc
        simp [digitVal_natDigitChar h]
      · intro c hc
        rename_i h
        rcases List.mem_append.mp hc with h1 | h1
        · exact ih (n / 10) (Nat.div_lt_self (by omega) (by omega)) c h1
        · simp only [List.mem_singleton] at h1
          subst h1
          simp [digitVal_natDigitChar (Nat.mod_lt n (by omega))]

theorem foldl_digits (l : List Char) : ∀ acc : Nat,
    l.foldl (fun a c => a * 10 + (digitVal c).getD 0) acc =
      acc * 10 ^ l.length + l.foldl (fun a c => a * 10 + (digitVal c).getD 0) 0 := by
  induction l with
  | nil => simp
  | cons c t ih =>
      intro acc
      simp only [List.foldl_cons, List.length_cons]
      rw [ih (acc * 10 + (digitVal c).getD 0), ih ((0 : Nat) * 10 + (digitVal c).getD 0)]
      ring

theorem digitsToNat_append (a b : List Char) :
    digitsToNat (a ++ b) = digitsToNat a * 10 ^ b.length + digitsToNat b := by
  unfold digitsToNat
  rw [List.foldl_append, foldl_digits b]

theorem digitsToNat_natDigits (n : Nat) : digitsToNat (natDigits n) = n := by
  induction n using Nat.strong_induction_on with
  | _ n ih =>
      rw [natDigits]
      split
      · rename_i h
        simp [digitsToNat, digitVal_natDigitChar h]
      · rename_i h
        rw [digitsToNat_append, ih (n / 10) (Nat.div_lt_self (by omega) (by omega))]
        have : digitsToNat [natDigitChar (n % 10)] = n % 10 := by
          simp [digitsToNat, digitVal_natDigitChar (Nat.mod_lt n (by omega))]
        rw [this]
        simp
        omega

theorem natDigits_head_zero {n : Nat} (h : (natDigits n).head? = some '0') : n = 0 := by
  induction n using Nat.strong_induction_on with
  | _ n ih =>
      rw [natDigits] at h
      split at h
      · rename_i hlt
        simp only [List.head?_cons, Option.some.injEq] at h
        interval_cases n <;> simp_all [natDigitChar]
      · rename_i hge
        rw [List.head?_append_of_ne_nil _ (natDigits_ne_nil (n / 10))] at h
        have := ih (n / 10) (Nat.div_lt_self (by omega) (by omega)) h
        omega

theorem natDigits_length_le {n k : Nat} (hk : 1 ≤ k) (h : n < 10 ^ k) :
    (natDigits n).length ≤ k := by
  induction n using Nat.strong_induction_on generalizing k with
  | _ n ih =>
      rw [natDigits]
      split
      · simp
        omega
      · rename_i hge
        have hk2 : 2 ≤ k := by
          by_contra hc
          have : k = 1 := by omega
          subst this
          simp at h
          omega
        have hdiv : n / 10 < 10 ^ (k - 1) := by
          rw [Nat.div_lt_iff_lt_mul (by omega)]
          calc n < 10 ^ k := h
          _ = 10 ^ (k - 1) * 10 := by
                rw [← Nat.pow_succ]
                congr 1
                omega
        have := ih (n / 10) (Nat.div_lt_self (by omega) (by omega)) (by omega) hdiv
        simp only [List.length_append, List.length_cons, List.length_nil]
        omega

/-- The head of the remaining input is not a digit. -/
def headNotDigit : List Char → Prop
  | [] => True
  | c :: _ => digitVal c = none

/-- The remaining input cannot extend a number (no digit, no dot). -/
def numBoundary : List Char → Prop
  | [] => True
  | c :: _ => digitVal c = none ∧ c ≠ '.'

theorem headNotDigit_of_numBoundary {l : List Char} (h : numBoundary l) :
    headNotDigit l := by
  cases l with
  | nil => trivial
  | cons c t => exact h.1

theorem takeDigits_append (ds rest : List Char)
    (hds : ∀ c ∈ ds, (digitVal c).isSome)
    (hrest : headNotDigit rest) :
    takeDigits (ds ++ rest) = (ds, rest) := by
  induction ds with
  | nil =>
      simp only [List.nil_append]
      cases rest with
      | nil => rfl
      | cons c t =>
          unfold takeDigits
          unfold headNotDigit at hrest
          simp [hrest]
  | cons c t ih =>
      have hc : (digitVal c).isSome := hds c (by simp)
      simp only [List.cons_append]
      unfold takeDigits
      rw [if_pos hc, ih (fun x hx => hds x (by simp [hx]))]

theorem natDigits_cons (n : Nat) :
    ∃ c t, natDigits n = c :: t ∧ (digitVal c).isSome := by
  cases hnd : natDigits n with
  | nil => exact absurd hnd (natDigits_ne_nil n)
  | cons c t =>
      exact ⟨c, t, rfl, natDigits_digits n c (by rw [hnd]; simp)⟩

theorem natDigits_no_leading_zero (a : Nat) :
    ¬((natDigits a).length > 1 ∧ (natDigits a).head? = some '0') := by
  rintro ⟨hl, hz⟩
  have ha := natDigits_head_zero hz
  subst ha
  rw [natDigits] at hl
  simp at hl

theorem padZeros_digits (l : List Char) (k : Nat)
    (hl : ∀ c ∈ l, (digitVal c).isSome) :
    ∀ c ∈ padZeros l k, (digitVal c).isSome := by
  intro c hc
  unfold padZeros at hc
  rcases List.mem_append.mp hc with h | h
  · rw [List.eq_of_mem_replicate h]
    rfl
  · exact hl c h

theorem padZeros_length {l : List Char} {k : Nat} (h : l.length ≤ k) :
    (padZeros l k).length = k := by
  unfold padZeros
  simp
  omega

theorem digitsToNat_replicate_zero (k : Nat) :
    digitsToNat (List.replicate k '0') = 0 := by
  induction k with
  | zero => rfl
  | succ k ih =>
      rw [List.replicate_succ]
      unfold digitsToNat at *
      simp only [List.foldl_cons]
      simpa [digitVal] using ih

theorem digitsToNat_padZeros (l : List Char) (k : Nat) :
    digitsToNat (padZeros l k) = digitsToNat l := by
  unfold padZeros
  rw [digitsToNat_append, digitsToNat_replicate_zero]
  simp

theorem parseUnsigned_int (neg : Bool) (a : Nat) (rest : List Char)
    (hb : numBoundary rest) :
    parseUnsigned neg (natDigits a ++ rest) = some (.int (applySign neg (a : Nat)), rest) := by
  unfold parseUnsigned
  rw [takeDigits_append _ _ (natDigits_digits _) (headNotDigit_of_numBoundary hb)]
  dsimp only
  rw [if_neg (by simpa using natDigits_ne_nil a), if_neg (natDigits_no_leading_zero _)]
  cases rest with
  | nil => rw [digitsToNat_natDigits]
  | cons c1 r2 =>
      obtain ⟨hd1, hd2⟩ := hb
      dsimp only
      rw [if_neg hd2, digitsToNat_natDigits]

theorem parseUnsigned_dec (neg : Bool) (ip fp e : Nat) (rest : List Char)
    (hfp : fp < 10 ^ (e + 1)) (hb : numBoundary rest) :
    parseUnsigned neg (natDigits ip ++ '.' :: (padZeros (natDigits fp) (e + 1) ++ rest)) =
      some (.dec (applySign neg (ip * 10 ^ (e + 1) + fp)) e, rest) := by
  have hpadlen : (padZeros (natDigits fp) (e + 1)).length = e + 1 :=
    padZeros_length (natDigits_length_le (by omega) hfp)
  unfold parseUnsigned
  rw [takeDigits_append _ _ (natDigits_digits _) (by exact rfl)]
  dsimp only
  rw [if_neg (by simpa using natDigits_ne_nil ip), if_neg (natDigits_no_leading_zero _),
    if_pos rfl]
  rw [takeDigits_append _ _ (padZeros_digits _ _ (natDigits_digits _))
    (headNotDigit_of_numBoundary hb)]
  dsimp only
  rw [if_neg (by
    intro hh
    rw [hh] at hpadlen
    simp at hpadlen)]
  rw [digitsToNat_append, digitsToNat_padZeros, hpadlen, digitsToNat_natDigits,
    digitsToNat_natDigits]
  norm_num

/-- Parsing inverts printing for numbers, up to a non-extending
remainder. -/
theorem parseNumber_dump (n : JNum) (rest : List Char) (hb : numBoundary rest) :
    parseNumber (dumpJNum n ++ rest) = some (n, rest) := by
  cases n with
  | int m =>
      show parseNumber (intDigits m ++ rest) = _
      unfold intDigits
      by_cases hm : m < 0
      · rw [if_pos hm]
        show parseUnsigned true (natDigits m.natAbs ++ rest) = _
        rw [parseUnsigned_int true m.natAbs rest hb]
        simp only [applySign, Option.some.injEq, Prod.mk.injEq, JNum.int.injEq, and_true]
        omega
      · rw [if_neg hm]
        obtain ⟨c, t, hct, hcd⟩ := natDigits_cons m.natAbs
        rw [hct]
        simp only [List.cons_append]
        have hcm : c ≠ '-' := by
          intro hh
          rw [hh] at hcd
          simp [digitVal] at hcd
        unfold parseNumber
        try dsimp only
        rw [if_neg hcm, ← List.cons_append, ← hct, parseUnsigned_int false m.natAbs rest hb]
        simp only [applySign, Option.some.injEq, Prod.mk.injEq, JNum.int.injEq, and_true]
        omega
  | dec m e =>
      have hfp : m.natAbs % 10 ^ (e + 1) < 10 ^ (e + 1) :=
        Nat.mod_lt _ (Nat.pos_pow_of_pos _ (by omega))
      show parseNumber (((if m < 0 then ['-'] else []) ++
        natDigits (m.natAbs / 10 ^ (e + 1)) ++
        '.' :: padZeros (natDigits (m.natAbs % 10 ^ (e + 1))) (e + 1)) ++ rest) = _
      by_cases hm : m < 0
      · rw [if_pos hm]
        simp only [List.append_assoc, List.cons_append, List.nil_append]
        show parseUnsigned true (natDigits (m.natAbs / 10 ^ (e + 1)) ++
          ('.' :: (padZeros (natDigits (m.natAbs % 10 ^ (e + 1))) (e + 1) ++ rest))) = _
        rw [parseUnsigned_dec true _ _ e rest hfp hb]
        simp only [applySign, Option.some.injEq, Prod.mk.injEq, JNum.dec.injEq, and_true,
          true_and]
        rw [Nat.div_add_mod']
        omega
      · rw [if_neg hm]
        simp only [List.append_assoc, List.cons_append, List.nil_append]
        obtain ⟨c, t, hct, hcd⟩ := natDigits_cons (m.natAbs / 10 ^ (e + 1))
        have hcm : c ≠ '-' := by
          intro hh
          rw [hh] at hcd
          simp [digitVal] at hcd
        rw [hct, List.cons_append]
        unfold parseNumber
        try dsimp only
        rw [if_neg hcm, ← List.cons_append, ← hct,
          parseUnsigned_dec false _ _ e rest hfp hb]
        simp only [applySign, Option.some.injEq, Prod.mk.injEq, JNum.dec.injEq, and_true,
          true_and]
        rw [Nat.div_add_mod']
        omega

/-! ## Round-trip lemmas: strings -/

theorem char_valid_nat (c : Char) :
    c.toNat < 0xd800 ∨ (0xdfff < c.toNat ∧ c.toNat < 0x110000) := c.valid

theorem hex4_toHex4 {n : Nat} (h : n < 0x10000) :
    hex4 (hexDigitChar (n / 4096 % 16)) (hexDigitChar (n / 256 % 16))
      (hexDigitChar (n / 16 % 16)) (hexDigitChar (n % 16)) = some n := by
  unfold hex4
  rw [hexVal_hexDigitChar (Nat.mod_lt _ (by omega)),
    hexVal_hexDigitChar (Nat.mod_lt _ (by omega)),
    hexVal_hexDigitChar (Nat.mod_lt _ (by omega)),
    hexVal_hexDigitChar (Nat.mod_lt _ (by omega))]
  simp only [Option.bind_eq_bind, Option.some_bind, Option.some.injEq]
  omega

theorem escapeChar_length_pos (c : Char) : 1 ≤ (escapeChar c).length := by
  unfold escapeChar
  split_ifs <;> simp [toHex4]

theorem len_le_flatten (cs : List Char) :
    cs.length ≤ ((cs.map escapeChar).flatten).length := by
  induction cs with
  | nil => simp
  | cons c t ih =>
      simp only [List.map_cons, List.flatten_cons, List.length_append, List.length_cons]
      have := escapeChar_length_pos c
      omega

theorem decodeLowSurrogate_toHex4 {m : Nat} (n : Nat) (hm : m < 0x10000)
    (h2 : 0xDC00 ≤ m ∧ m ≤ 0xDFFF) (rest : List Char) :
    decodeLowSurrogate n ('\\' :: 'u' :: (toHex4 m ++ rest)) =
      some (Char.ofNat (0x10000 + (n - 0xD800) * 0x400 + (m - 0xDC00)), rest) := by
  rw [show decodeLowSurrogate n ('\\' :: 'u' :: (toHex4 m ++ rest)) =
    (match hex4 (hexDigitChar (m / 4096 % 16)) (hexDigitChar (m / 256 % 16))
        (hexDigitChar (m / 16 % 16)) (hexDigitChar (m % 16)) with
     | none => none
     | some m' =>
         if 0xDC00 ≤ m' ∧ m' ≤ 0xDFFF then
           some (Char.ofNat (0x10000 + (n - 0xD800) * 0x400 + (m' - 0xDC00)), rest)
         else none) from rfl]
  rw [hex4_toHex4 hm]
  dsimp only
  rw [if_pos h2]

theorem decodeEscapeU_toHex4 {n : Nat} (hn : n < 0x10000)
    (h1 : ¬(0xD800 ≤ n ∧ n ≤ 0xDBFF)) (h2 : ¬(0xDC00 ≤ n ∧ n ≤ 0xDFFF))
    (rest : List Char) :
    decodeEscapeU (toHex4 n ++ rest) = some (Char.ofNat n, rest) := by
  rw [show decodeEscapeU (toHex4 n ++ rest) =
    (match hex4 (hexDigitChar (n / 4096 % 16)) (hexDigitChar (n / 256 % 16))
        (hexDigitChar (n / 16 % 16)) (hexDigitChar (n % 16)) with
     | none => none
     | some n' =>
         if 0xD800 ≤ n' ∧ n' ≤ 0xDBFF then decodeLowSurrogate n' rest
         else if 0xDC00 ≤ n' ∧ n' ≤ 0xDFFF then none
         else some (Char.ofNat n', rest)) from rfl]
  rw [hex4_toHex4 hn]
  dsimp only
  rw [if_neg h1, if_neg h2]

theorem decodeEscapeU_pair {n m : Nat} (hn : n < 0x10000) (hm : m < 0x10000)
    (h1 : 0xD800 ≤ n ∧ n ≤ 0xDBFF) (h2 : 0xDC00 ≤ m ∧ m ≤ 0xDFFF)
    {rest : List Char} :
    decodeEscapeU (toHex4 n ++ ('\\' :: 'u' :: (toHex4 m ++ rest))) =
      some (Char.ofNat (0x10000 + (n - 0xD800) * 0x400 + (m - 0xDC00)), rest) := by
  rw [show decodeEscapeU (toHex4 n ++ ('\\' :: 'u' :: (toHex4 m ++ rest))) =
    (match hex4 (hexDigitChar (n / 4096 % 16)) (hexDigitChar (n / 256 % 16))
        (hexDigitChar (n / 16 % 16)) (hexDigitChar (n % 16)) with
     | none => none
     | some n' =>
         if 0xD800 ≤ n' ∧ n' ≤ 0xDBFF then
           decodeLowSurrogate n' ('\\' :: 'u' :: (toHex4 m ++ rest))
         else if 0xDC00 ≤ n' ∧ n' ≤ 0xDFFF then none
         else some (Char.ofNat n', ('\\' :: 'u' :: (toHex4 m ++ rest)))) from rfl]
  rw [hex4_toHex4 hn]
  dsimp only
  rw [if_pos h1, decodeLowSurrogate_toHex4 n hm h2]

/-- Parsing inverts the character-escaping serialisation of string
bodies (fuelled form; one unit of fuel per source character). -/
theorem parseStringGo_dump (cs : List Char) : ∀ (fuel : Nat) (rest : List Char),
    cs.length + 1 ≤ fuel →
    parseStringGo fuel ((cs.map escapeChar).flatten ++ '"' :: rest) = some (cs, rest) := by
  induction cs with
  | nil =>
      intro fuel rest hf
      obtain ⟨f, rfl⟩ : ∃ f, fuel = f + 1 := ⟨fuel - 1, by omega⟩
      simp only [List.map_nil, List.flatten_nil, List.nil_append]
      unfold parseStringGo
      rw [if_pos rfl]
  | cons c t ih =>
      intro fuel rest hf
      obtain ⟨f, rfl⟩ : ∃ f, fuel = f + 1 := ⟨fuel - 1, by omega⟩
      simp only [List.map_cons, List.flatten_cons, List.append_assoc, List.length_cons] at *
      by_cases h1 : c = '"'
      · subst h1
        rw [show escapeChar '"' = ['\\', '"'] from rfl]
        simp only [List.cons_append, List.nil_append]
        simp [parseStringGo, unescapeShort, ih f rest (by omega)]
      by_cases h2 : c = '\\'
      · subst h2
        rw [show escapeChar '\\' = ['\\', '\\'] from rfl]
        simp only [List.cons_append, List.nil_append]
        simp [parseStringGo, unescapeShort, ih f rest (by omega)]
      by_cases h3 : c = '\n'
      · subst h3
        rw [show escapeChar '\n' = ['\\', 'n'] from rfl]
        simp only [List.cons_append, List.nil_append]
        simp [parseStringGo, unescapeShort, ih f rest (by omega)]
      by_cases h4 : c = '\t'
      · subst h4
        rw [show escapeChar '\t' = ['\\', 't'] from rfl]
        simp only [List.cons_append, List.nil_append]
        simp [parseStringGo, unescapeShort, ih f rest (by omega)]
      by_cases h5 : c = '\r'
      · subst h5
        rw [show escapeChar '\r' = ['\\', 'r'] from rfl]
        simp only [List.cons_append, List.nil_append]
        simp [parseStringGo, unescapeShort, ih f rest (by omega)]
      by_cases h6 : c = '\x08'
      · subst h6
        rw [show escapeChar '\x08' = ['\\', 'b'] from rfl]
        simp only [List.cons_append, List.nil_append]
        simp [parseStringGo, unescapeShort, ih f rest (by omega)]
      by_cases h7 : c = '\x0c'
      · subst h7
        rw [show escapeChar '\x0c' = ['\\', 'f'] from rfl]
        simp only [List.cons_append, List.nil_append]
        simp [parseStringGo, unescapeShort, ih f rest (by omega)]
      by_cases hp : 0x20 ≤ c.toNat ∧ c.toNat ≤ 0x7e
      · rw [show escapeChar c = [c] by
          simp [escapeChar, h1, h2, h3, h4, h5, h6, h7, hp]]
        rw [List.singleton_append]
        simp only [parseStringGo]
        rw [if_neg h1, if_neg h2, if_neg (by omega), ih f rest (by omega)]
        rfl
      by_cases hu : c.toNat < 0x10000
      · have hv := char_valid_nat c
        rw [show escapeChar c = '\\' :: 'u' :: toHex4 c.toNat by
          simp [escapeChar, h1, h2, h3, h4, h5, h6, h7, hp, hu]]
        rw [show ('\\' :: 'u' :: toHex4 c.toNat) ++
              ((t.map escapeChar).flatten ++ '"' :: rest) =
            '\\' :: 'u' :: (toHex4 c.toNat ++
              ((t.map escapeChar).flatten ++ '"' :: rest)) by simp]
        simp only [show ∀ l, parseStringGo (f + 1) ('\\' :: 'u' :: l) =
            (match decodeEscapeU l with
             | some pr => (parseStringGo f pr.2).map fun p => (pr.1 :: p.1, p.2)
             | none => none) from fun l => by simp [parseStringGo]]
        rw [decodeEscapeU_toHex4 hu (by omega) (by omega)]
        simp only [ih f rest (by omega), Char.ofNat_toNat]
        rfl
      · have hv := char_valid_nat c
        have hcode : 0x10000 +
            ((0xD800 + (c.toNat - 0x10000) / 0x400) - 0xD800) * 0x400 +
            ((0xDC00 + (c.toNat - 0x10000) % 0x400) - 0xDC00) = c.toNat := by omega
        rw [show escapeChar c =
            ('\\' :: 'u' :: toHex4 (0xD800 + (c.toNat - 0x10000) / 0x400)) ++
              ('\\' :: 'u' :: toHex4 (0xDC00 + (c.toNat - 0x10000) % 0x400)) by
          simp [escapeChar, h1, h2, h3, h4, h5, h6, h7, hp, hu]]
        rw [show (('\\' :: 'u' :: toHex4 (0xD800 + (c.toNat - 0x10000) / 0x400)) ++
              ('\\' :: 'u' :: toHex4 (0xDC00 + (c.toNat - 0x10000) % 0x400))) ++
              ((t.map escapeChar).flatten ++ '"' :: rest) =
            '\\' :: 'u' :: (toHex4 (0xD800 + (c.toNat - 0x10000) / 0x400) ++
              ('\\' :: 'u' :: (toHex4 (0xDC00 + (c.toNat - 0x10000) % 0x400) ++
                ((t.map escapeChar).flatten ++ '"' :: rest)))) by simp]
        simp only [show ∀ l, parseStringGo (f + 1) ('\\' :: 'u' :: l) =
            (match decodeEscapeU l with
             | some pr => (parseStringGo f pr.2).map fun p => (pr.1 :: p.1, p.2)
             | none => none) from fun l => by simp [parseStringGo]]
        rw [decodeEscapeU_pair (by omega) (by omega) (by omega) (by omega)]
        simp only [ih f rest (by omega), hcode, Char.ofNat_toNat]
        rfl

/-- Parsing inverts the character-escaping serialisation of string
bodies. -/
theorem parseStringBody_dump (cs rest : List Char) :
    parseStringBody ((cs.map escapeChar).flatten ++ '"' :: rest) = some (cs, rest) := by
  unfold parseStringBody
  apply parseStringGo_dump
  have := len_le_flatten cs
  simp only [List.length_append, List.length_cons]
  omega

/-! ## Round-trip lemmas: values -/

theorem skipWs_cons {c : Char} (h : jsonWs c = false) (l : List Char) :
    skipWs (c :: l) = c :: l := by
  simp [skipWs, h]

theorem mk_data (s : String) : String.mk s.data = s := rfl

theorem digit_enum {c : Char} (h : (digitVal c).isSome = true) :
    c = '0' ∨ c = '1' ∨ c = '2' ∨ c = '3' ∨ c = '4' ∨
    c = '5' ∨ c = '6' ∨ c = '7' ∨ c = '8' ∨ c = '9' := by
  unfold digitVal at h
  split at h <;> simp_all

theorem numStart_facts {c : Char} (h : c = '-' ∨ (digitVal c).isSome = true) :
    jsonWs c = false ∧ c ≠ 'n' ∧ c ≠ 't' ∧ c ≠ 'f' ∧ c ≠ '"' ∧ c ≠ '[' ∧
    c ≠ '\x7b' ∧ c ≠ ']' ∧ c ≠ '\x7d' ∧ pyIsSpace c = false := by
  rcases h with h | h
  · subst h
    decide
  · rcases digit_enum h with h | h | h | h | h | h | h | h | h | h <;> (subst h; decide)

theorem dumpJNum_cons (n : JNum) :
    ∃ c t, dumpJNum n = c :: t ∧ (c = '-' ∨ (digitVal c).isSome = true) := by
  cases n with
  | int m =>
      show ∃ c t, intDigits m = c :: t ∧ _
      unfold intDigits
      by_cases hm : m < 0
      · rw [if_pos hm]
        exact ⟨'-', _, rfl, Or.inl rfl⟩
      · rw [if_neg hm]
        obtain ⟨c, t, hct, hcd⟩ := natDigits_cons m.natAbs
        exact ⟨c, t, hct, Or.inr hcd⟩
  | dec m e =>
      by_cases hm : m < 0
      · refine ⟨'-', natDigits (m.natAbs / 10 ^ (e + 1)) ++
          '.' :: padZeros (natDigits (m.natAbs % 10 ^ (e + 1))) (e + 1), ?_, Or.inl rfl⟩
        show (if m < 0 then ['-'] else []) ++ natDigits (m.natAbs / 10 ^ (e + 1)) ++
          '.' :: padZeros (natDigits (m.natAbs % 10 ^ (e + 1))) (e + 1) = _
        rw [if_pos hm]
        simp
      · obtain ⟨c, t, hct, hcd⟩ := natDigits_cons (m.natAbs / 10 ^ (e + 1))
        refine ⟨c, t ++ '.' :: padZeros (natDigits (m.natAbs % 10 ^ (e + 1))) (e + 1),
          ?_, Or.inr hcd⟩
        show (if m < 0 then ['-'] else []) ++ natDigits (m.natAbs / 10 ^ (e + 1)) ++
          '.' :: padZeros (natDigits (m.natAbs % 10 ^ (e + 1))) (e + 1) = _
        rw [if_neg hm, hct]
        simp

theorem dumpJson_cons (j : Json) : ∃ c t, dumpJson j = c :: t ∧ jsonWs c = false ∧
    c ≠ ']' ∧ c ≠ '\x7d' ∧ pyIsSpace c = false := by
  cases j with
  | null => exact ⟨'n', _, rfl, by decide, by decide, by decide, by decide⟩
  | bool b =>
      cases b
      · exact ⟨'f', _, rfl, by decide, by decide, by decide, by decide⟩
      · exact ⟨'t', _, rfl, by decide, by decide, by decide, by decide⟩
  | num n =>
      obtain ⟨c, t, hct, hc⟩ := dumpJNum_cons n
      obtain ⟨hw, _, _, _, _, _, _, h8, h9, h10⟩ := numStart_facts hc
      exact ⟨c, t, by rw [show dumpJson (Json.num n) = dumpJNum n from rfl, hct], hw, h8, h9, h10⟩
  | str s => exact ⟨'"', _, rfl, by decide, by decide, by decide, by decide⟩
  | arr xs => exact ⟨'[', _, rfl, by decide, by decide, by decide, by decide⟩
  | obj kvs => exact ⟨'\x7b', _, rfl, by decide, by decide, by decide, by decide⟩

theorem numBoundary_cons (c : Char) (h1 : digitVal c = none) (h2 : c ≠ '.')
    (l : List Char) : numBoundary (c :: l) := ⟨h1, h2⟩

theorem dumpJson_length_pos (j : Json) : 1 ≤ (dumpJson j).length := by
  obtain ⟨c, t, hct, _⟩ := dumpJson_cons j
  rw [hct]
  simp

mutual

/-- Parsing inverts printing for JSON values, with enough fuel and a
non-extending remainder. -/
theorem parseValue_dump : ∀ (j : Json) (fuel : Nat) (rest : List Char),
    (dumpJson j).length ≤ fuel → numBoundary rest →
    parseValue fuel (dumpJson j ++ rest) = some (j, rest)
  | .null, fuel, rest, hf, _ => by
      obtain ⟨f, rfl⟩ : ∃ f, fuel = f + 1 :=
        ⟨fuel - 1, by have := dumpJson_length_pos .null; omega⟩
      simp [dumpJson, parseValue, skipWs, jsonWs]
  | .bool b, fuel, rest, hf, _ => by
      obtain ⟨f, rfl⟩ : ∃ f, fuel = f + 1 :=
        ⟨fuel - 1, by have := dumpJson_length_pos (.bool b); omega⟩
      cases b <;> simp [dumpJson, parseValue, skipWs, jsonWs]
  | .str s, fuel, rest, hf, _ => by
      obtain ⟨f, rfl⟩ : ∃ f, fuel = f + 1 :=
        ⟨fuel - 1, by have := dumpJson_length_pos (.str s); omega⟩
      rw [show dumpJson (.str s) ++ rest =
        '"' :: ((s.data.map escapeChar).flatten ++ '"' :: rest) by
          simp [dumpJson, dumpString]]
      simp [parseValue, skipWs, jsonWs, parseStringBody_dump, mk_data]
  | .num n, fuel, rest, hf, hb => by
      obtain ⟨f, rfl⟩ : ∃ f, fuel = f + 1 :=
        ⟨fuel - 1, by have := dumpJson_length_pos (.num n); omega⟩
      obtain ⟨c, t, hct, hc⟩ := dumpJNum_cons n
      obtain ⟨hw, hn1, hn2, hn3, hn4, hn5, hn6, _, _, _⟩ := numStart_facts hc
      rw [show dumpJson (.num n) = dumpJNum n from rfl, hct, List.cons_append]
      simp only [parseValue]
      rw [skipWs_cons hw]
      try dsimp only
      rw [if_neg hn1, if_neg hn2, if_neg hn3, if_neg hn4, if_neg hn5, if_neg hn6,
        ← List.cons_append, ← hct, parseNumber_dump n rest hb]
  | .arr [], fuel, rest, hf, _ => by
      obtain ⟨f, rfl⟩ : ∃ f, fuel = f + 1 :=
        ⟨fuel - 1, by have := dumpJson_length_pos (.arr []); omega⟩
      simp [dumpJson, dumpElems, parseValue, skipWs, jsonWs]
  | .arr (x :: xs2), fuel, rest, hf, _ => by
      obtain ⟨f, rfl⟩ : ∃ f, fuel = f + 1 :=
        ⟨fuel - 1, by have := dumpJson_length_pos (.arr (x :: xs2)); omega⟩
      obtain ⟨c, t, hct, hw, hrb, _⟩ := dumpJson_cons x
      have hsplit : ∃ u, dumpElems (x :: xs2) = dumpJson x ++ u := by
        cases xs2 with
        | nil => exact ⟨[], by simp [dumpElems]⟩
        | cons y ys => exact ⟨',' :: dumpElems (y :: ys), rfl⟩
      obtain ⟨u, hu⟩ := hsplit
      have hlen : (dumpElems (x :: xs2)).length + 1 ≤ f := by
        have : (dumpJson (.arr (x :: xs2))).length =
            (dumpElems (x :: xs2)).length + 2 := by
          show ('[' :: dumpElems (x :: xs2) ++ [']']).length = _
          simp
        omega
      rw [show dumpJson (.arr (x :: xs2)) ++ rest =
        '[' :: (dumpElems (x :: xs2) ++ ']' :: rest) by
          show ('[' :: dumpElems (x :: xs2) ++ [']']) ++ rest = _
          simp]
      simp only [parseValue]
      rw [skipWs_cons (by decide)]
      try dsimp only
      rw [if_neg (by decide), if_neg (by decide), if_neg (by decide),
        if_neg (by decide), if_pos rfl]
      rw [hu, List.append_assoc, hct, List.cons_append, skipWs_cons hw]
      try dsimp only
      rw [if_neg hrb, ← List.cons_append, ← hct, ← List.append_assoc, ← hu,
        parseElems_dump (x :: xs2) f rest (by simp) hlen]
  | .obj [], fuel, rest, hf, _ => by
      obtain ⟨f, rfl⟩ : ∃ f, fuel = f + 1 :=
        ⟨fuel - 1, by have := dumpJson_length_pos (.obj []); omega⟩
      simp [dumpJson, dumpFields, parseValue, skipWs, jsonWs]
  | .obj ((k, v) :: kvs2), fuel, rest, hf, _ => by
      obtain ⟨f, rfl⟩ : ∃ f, fuel = f + 1 :=
        ⟨fuel - 1, by have := dumpJson_length_pos (.obj ((k, v) :: kvs2)); omega⟩
      have hsplit : ∃ u, dumpFields ((k, v) :: kvs2) =
          '"' :: ((k.data.map escapeChar).flatten ++ '"' :: u) := by
        cases kvs2 with
        | nil =>
            refine ⟨':' :: dumpJson v, ?_⟩
            show dumpString k ++ ':' :: dumpJson v = _
            simp [dumpString]
        | cons kv2 kvs3 =>
            refine ⟨':' :: (dumpJson v ++ ',' :: dumpFields (kv2 :: kvs3)), ?_⟩
            show dumpString k ++ ':' :: dumpJson v ++ ',' :: dumpFields (kv2 :: kvs3) = _
            simp [dumpString]
      obtain ⟨u, hu⟩ := hsplit
      have hlen : (dumpFields ((k, v) :: kvs2)).length + 1 ≤ f := by
        have : (dumpJson (.obj ((k, v) :: kvs2))).length =
            (dumpFields ((k, v) :: kvs2)).length + 2 := by
          show ('\x7b' :: dumpFields ((k, v) :: kvs2) ++ ['\x7d']).length = _
          simp
        omega
      rw [show dumpJson (.obj ((k, v) :: kvs2)) ++ rest =
        '\x7b' :: (dumpFields ((k, v) :: kvs2) ++ '\x7d' :: rest) by
          show ('\x7b' :: dumpFields ((k, v) :: kvs2) ++ ['\x7d']) ++ rest = _
          simp]
      simp only [parseValue]
      rw [skipWs_cons (by decide)]
      try dsimp only
      rw [if_neg (by decide), if_neg (by decide), if_neg (by decide),
        if_neg (by decide), if_neg (by decide), if_pos rfl]
      rw [hu, List.cons_append, skipWs_cons (by decide)]
      try dsimp only
      rw [if_neg (by decide), ← List.cons_append, ← hu,
        parseMembers_dump ((k, v) :: kvs2) f rest (by simp) hlen]
termination_by j _ _ _ _ => sizeOf j
decreasing_by all_goals (simp_wf; try omega)

theorem parseElems_dump : ∀ (xs : List Json) (fuel : Nat) (rest : List Char),
    xs ≠ [] → (dumpElems xs).length + 1 ≤ fuel →
    parseElems fuel (dumpElems xs ++ ']' :: rest) = some (xs, rest)
  | [], _, _, hne, _ => absurd rfl hne
  | [x], fuel, rest, _, hf => by
      obtain ⟨f, rfl⟩ : ∃ f, fuel = f + 1 := ⟨fuel - 1, by omega⟩
      rw [show dumpElems [x] = dumpJson x from rfl]
      have hlx : (dumpJson x).length ≤ f := by
        have : dumpElems [x] = dumpJson x := rfl
        rw [this] at hf
        omega
      simp only [parseElems]
      rw [parseValue_dump x f (']' :: rest) hlx (numBoundary_cons ']' rfl (by decide) rest)]
      try dsimp only
      rw [skipWs_cons (by decide)]
      try dsimp only
      rw [if_neg (by decide), if_pos rfl]
  | x :: y :: ys, fuel, rest, _, hf => by
      obtain ⟨f, rfl⟩ : ∃ f, fuel = f + 1 := ⟨fuel - 1, by omega⟩
      have hstep : dumpElems (x :: y :: ys) =
          dumpJson x ++ ',' :: dumpElems (y :: ys) := rfl
      have hlx : (dumpJson x).length ≤ f := by
        rw [hstep] at hf
        simp at hf
        omega
      have hlys : (dumpElems (y :: ys)).length + 1 ≤ f := by
        rw [hstep] at hf
        simp at hf
        omega
      rw [show dumpElems (x :: y :: ys) ++ ']' :: rest =
        dumpJson x ++ (',' :: (dumpElems (y :: ys) ++ ']' :: rest)) by
          rw [hstep]
          simp]
      simp only [parseElems]
      rw [parseValue_dump x f (',' :: (dumpElems (y :: ys) ++ ']' :: rest)) hlx
        (numBoundary_cons ',' rfl (by decide) _)]
      try dsimp only
      rw [skipWs_cons (by decide)]
      try dsimp only
      rw [if_pos rfl, parseElems_dump (y :: ys) f rest (by simp) hlys]
termination_by xs _ _ _ _ => sizeOf xs
decreasing_by all_goals (simp_wf; try omega)

theorem parseMembers_dump : ∀ (kvs : List (String × Json)) (fuel : Nat) (rest : List Char),
    kvs ≠ [] → (dumpFields kvs).length + 1 ≤ fuel →
    parseMembers fuel (dumpFields kvs ++ '\x7d' :: rest) = some (kvs, rest)
  | [], _, _, hne, _ => absurd rfl hne
  | [(k, v)], fuel, rest, _, hf => by
      obtain ⟨f, rfl⟩ : ∃ f, fuel = f + 1 := ⟨fuel - 1, by omega⟩
      have hstep : dumpFields [(k, v)] = dumpString k ++ ':' :: dumpJson v := rfl
      have hlv : (dumpJson v).length ≤ f := by
        rw [hstep] at hf
        simp at hf
        omega
      rw [show dumpFields [(k, v)] ++ '\x7d' :: rest =
        '"' :: ((k.data.map escapeChar).flatten ++
          '"' :: (':' :: (dumpJson v ++ '\x7d' :: rest))) by
          rw [hstep]
          show (('"' :: ((k.data.map escapeChar).flatten ++ ['"'])) ++
            ':' :: dumpJson v) ++ '\x7d' :: rest = _
          simp]
      simp only [parseMembers]
      rw [parseStringBody_dump k.data (':' :: (dumpJson v ++ '\x7d' :: rest))]
      try dsimp only
      rw [skipWs_cons (by decide)]
      try dsimp only
      rw [if_pos rfl, parseValue_dump v f ('\x7d' :: rest) hlv
        (numBoundary_cons '\x7d' rfl (by decide) rest)]
      try dsimp only
      rw [skipWs_cons (by decide)]
      try dsimp only
      rw [if_neg (by decide), if_pos rfl, mk_data]
  | (k, v) :: kv2 :: kvs3, fuel, rest, _, hf => by
      obtain ⟨f, rfl⟩ : ∃ f, fuel = f + 1 := ⟨fuel - 1, by omega⟩
      have hstep : dumpFields ((k, v) :: kv2 :: kvs3) =
          dumpString k ++ ':' :: dumpJson v ++ ',' :: dumpFields (kv2 :: kvs3) := rfl
      have hlv : (dumpJson v).length ≤ f := by
        rw [hstep] at hf
        simp [dumpString] at hf
        omega
      have hlkvs : (dumpFields (kv2 :: kvs3)).length + 1 ≤ f := by
        rw [hstep] at hf
        simp [dumpString] at hf
        omega
      obtain ⟨c2, t2, hct2, hw2, _, _⟩ :
          ∃ c2 t2, dumpFields (kv2 :: kvs3) = c2 :: t2 ∧ jsonWs c2 = false ∧
            c2 ≠ ']' ∧ c2 ≠ '\x7d' := by
        obtain ⟨k2, v2⟩ := kv2
        refine ⟨'"', ?_, ?_, by decide, by decide, by decide⟩
        · exact (k2.data.map escapeChar).flatten ++
            '"' :: (':' :: dumpJson v2 ++
              (match kvs3 with
               | [] => []
               | kv3 :: kvs4 => ',' :: dumpFields (kv3 :: kvs4)))
        · cases kvs3 with
          | nil =>
              show dumpString k2 ++ ':' :: dumpJson v2 = _
              simp [dumpString]
          | cons kv3 kvs4 =>
              show dumpString k2 ++ ':' :: dumpJson v2 ++
                ',' :: dumpFields (kv3 :: kvs4) = _
              simp [dumpString]
      rw [show dumpFields ((k, v) :: kv2 :: kvs3) ++ '\x7d' :: rest =
        '"' :: ((k.data.map escapeChar).flatten ++
          '"' :: (':' :: (dumpJson v ++
            ',' :: (dumpFields (kv2 :: kvs3) ++ '\x7d' :: rest)))) by
          rw [hstep]
          show ((('"' :: ((k.data.map escapeChar).flatten ++ ['"'])) ++
            ':' :: dumpJson v) ++ ',' :: dumpFields (kv2 :: kvs3)) ++
              '\x7d' :: rest = _
          simp]
      simp only [parseMembers]
      rw [parseStringBody_dump k.data
        (':' :: (dumpJson v ++ ',' :: (dumpFields (kv2 :: kvs3) ++ '\x7d' :: rest)))]
      try dsimp only
      rw [skipWs_cons (by decide)]
      try dsimp only
      rw [if_pos rfl, parseValue_dump v f
        (',' :: (dumpFields (kv2 :: kvs3) ++ '\x7d' :: rest)) hlv
        (numBoundary_cons ',' rfl (by decide) _)]
      try dsimp only
      rw [skipWs_cons (by decide)]
      try dsimp only
      rw [if_pos rfl, hct2, List.cons_append, skipWs_cons hw2, ← List.cons_append,
        ← hct2, parseMembers_dump (kv2 :: kvs3) f rest (by simp) hlkvs, mk_data]
termination_by kvs _ _ _ _ => sizeOf kvs
decreasing_by all_goals (simp_wf; try omega)

end

/-- `json.loads(json.dumps(v))` is the identity on JSON values. -/
theorem json_loads_dump (j : Json) : json_loads (String.mk (dumpJson j)) = some j := by
  have h := parseValue_dump j ((dumpJson j).length + 1) [] (by omega) trivial
  rw [List.append_nil] at h
  unfold json_loads
  rw [show (String.mk (dumpJson j)).data = dumpJson j from rfl, h]
  rfl

/-! ## Offer and call-summary entries (`OfferLog` / `CallSummary`,
lines 41-58) and the append-only JSONL logs -/

structure OfferLog where
  call_id : String
  load_id : String
  mc_number : String
  carrier_offer : JNum
  round : Int
  broker_offer : Option JNum := none
  accepted : Option Bool := none
  deriving Repr, DecidableEq

structure CallSummary where
  call_id : String
  carrier_mc : Option String := none
  load_id : Option String := none
  final_price : Option JNum := none
  outcome : Option String := none
  sentiment : Option String := none
  offer_history : Option (List JNum) := none
  transcript_url : Option String := none
  deriving Repr, DecidableEq

def jsonOfOptNum : Option JNum → Json
  | none => .null
  | some n => .num n

def jsonOfOptStr : Option String → Json
  | none => .null
  | some s => .str s

def jsonOfOptBool : Option Bool → Json
  | none => .null
  | some b => .bool b

def jsonOfOptList : Option (List JNum) → Json
  | none => .null
  | some l => .arr (l.map Json.num)

/-- `body.dict()` of an offer entry: all declared fields in declaration
order, `None` for absent optionals. -/
def OfferLog.toJson (o : OfferLog) : Json :=
  .obj [("call_id", .str o.call_id), ("load_id", .str o.load_id),
        ("mc_number", .str o.mc_number), ("carrier_offer", .num o.carrier_offer),
        ("round", .num (.int o.round)), ("broker_offer", jsonOfOptNum o.broker_offer),
        ("accepted", jsonOfOptBool o.accepted)]

/-- `body.dict()` of a call-summary entry. -/
def CallSummary.toJson (s : CallSummary) : Json :=
  .obj [("call_id", .str s.call_id), ("carrier_mc", jsonOfOptStr s.carrier_mc),
        ("load_id", jsonOfOptStr s.load_id), ("final_price", jsonOfOptNum s.final_price),
        ("outcome", jsonOfOptStr s.outcome), ("sentiment", jsonOfOptStr s.sentiment),
        ("offer_history", jsonOfOptList s.offer_history),
        ("transcript_url", jsonOfOptStr s.transcript_url)]

def jsonToOptNum : Json → Option (Option JNum)
  | .null => some none
  | .num n => some (some n)
  | _ => none

def jsonToOptStr : Json → Option (Option String)
  | .null => some none
  | .str s => some (some s)
  | _ => none

def jsonToOptBool : Json → Option (Option Bool)
  | .null => some none
  | .bool b => some (some b)
  | _ => none

def jnumList : List Json → Option (List JNum)
  | [] => some []
  | .num n :: rest => (jnumList rest).map (n :: ·)
  | _ => none

def jsonToOptList : Json → Option (Option (List JNum))
  | .null => some none
  | .arr l => (jnumList l).map some
  | _ => none

/-- Reading the declared offer fields back from a parsed JSON line, as
the aggregator's `o.get(...)` lookups observe them. -/
def decodeOffer (j : Json) : Option OfferLog :=
  match j with
  | .obj fields =>
      match jget fields "call_id", jget fields "load_id", jget fields "mc_number",
            jget fields "carrier_offer", jget fields "round",
            jget fields "broker_offer", jget fields "accepted" with
      | some (.str a), some (.str b), some (.str c), some (.num d),
        some (.num (.int e)), some bo, some ac =>
          (match jsonToOptNum bo, jsonToOptBool ac with
           | some bo2, some ac2 => some ⟨a, b, c, d, e, bo2, ac2⟩
           | _, _ => none)
      | _, _, _, _, _, _, _ => none
  | _ => none

/-- Reading the declared call-summary fields back from a parsed JSON
line. -/
def decodeSummary (j : Json) : Option CallSummary :=
  match j with
  | .obj fields =>
      match jget fields "call_id", jget fields "carrier_mc", jget fields "load_id",
            jget fields "final_price", jget fields "outcome", jget fields "sentiment",
            jget fields "offer_history", jget fields "transcript_url" with
      | some (.str a), some mc, some lid, some fp, some oc, some st, some oh, some tu =>
          (match jsonToOptStr mc, jsonToOptStr lid, jsonToOptNum fp, jsonToOptStr oc,
                 jsonToOptStr st, jsonToOptList oh, jsonToOptStr tu with
           | some mc2, some lid2, some fp2, some oc2, some st2, some oh2, some tu2 =>
               some ⟨a, mc2, lid2, fp2, oc2, st2, oh2, tu2⟩
           | _, _, _, _, _, _, _ => none)
      | _, _, _, _, _, _, _, _ => none
  | _ => none

theorem jnumList_map (l : List JNum) : jnumList (l.map Json.num) = some l := by
  induction l with
  | nil => rfl
  | cons n rest ih => simp [jnumList, ih]

theorem decodeOffer_toJson (o : OfferLog) : decodeOffer o.toJson = some o := by
  obtain ⟨a, b, c, d, e, bo, ac⟩ := o
  cases bo <;> cases ac <;> rfl

theorem decodeSummary_toJson (s : CallSummary) : decodeSummary s.toJson = some s := by
  obtain ⟨a, mc, lid, fp, oc, st, oh, tu⟩ := s
  cases oh with
  | none =>
      cases mc <;> cases lid <;> cases fp <;> cases oc <;> cases st <;> cases tu <;> rfl
  | some l =>
      cases mc <;> cases lid <;> cases fp <;> cases oc <;> cases st <;> cases tu <;>
        simp [CallSummary.toJson, decodeSummary, jget, jsonOfOptStr, jsonOfOptNum,
          jsonOfOptList, jsonToOptStr, jsonToOptNum, jsonToOptList, jnumList_map]

/-- The JSONL line the logger writes for one offer (line 219): compact
JSON plus a newline. -/
def offerLine (o : OfferLog) : List Char := dumpJson o.toJson ++ ['\n']

/-- The JSONL line the logger writes for one summary (line 229). -/
def summaryLine (s : CallSummary) : List Char := dumpJson s.toJson ++ ['\n']

/-- File content produced by appending each entry's line in turn. -/
def offersFile (entries : List OfferLog) : List Char := (entries.map offerLine).flatten

def summariesFile (entries : List CallSummary) : List Char :=
  (entries.map summaryLine).flatten

/-- Python file line iteration: split after each newline, keeping the
newline; no empty final line. -/
def splitLinesGo : List Char → List Char → List (List Char)
  | [], cur => if cur = [] then [] else [cur.reverse]
  | c :: rest, cur =>
      if c = '\n' then (cur.reverse ++ ['\n']) :: splitLinesGo rest []
      else splitLinesGo rest (c :: cur)

def splitLines (content : List Char) : List (List Char) := splitLinesGo content []

/-- `[json.loads(x) for x in f if x.strip()]` (lines 240 and 245): keep
non-blank lines, parse each; any parse failure raises, which the caller
turns into an empty result. -/
def mapOption {α β : Type} (f : α → Option β) : List α → Option (List β)
  | [] => some []
  | a :: l =>
      match f a, mapOption f l with
      | some b, some bs => some (b :: bs)
      | _, _ => none

def readLog (content : List Char) : Option (List Json) :=
  mapOption (fun l => json_loads (String.mk l))
    ((splitLines content).filter fun l => pyStrip (String.mk l) ≠ "")

/-- Lines 237-247: a missing log file, or any exception while reading
it, leaves the corresponding list empty (`except Exception: pass`). -/
def readLogOrEmpty : Option (List Char) → List Json
  | none => []
  | some content =>
      match readLog content with
      | some js => js
      | none => []

/-! ## No line break inside a serialised value: `json.dumps` with
`ensure_ascii` escapes every control character, so each logged line
contains exactly one newline, the one the logger appends. -/

theorem nl_not_mem_of_digits {l : List Char}
    (h : ∀ c ∈ l, (digitVal c).isSome) : '\n' ∉ l := by
  intro hm
  exact absurd (h _ hm) (by decide)

theorem hexDigitChar_ne_nl (n : Nat) : hexDigitChar n ≠ '\n' := by
  unfold hexDigitChar
  split <;> decide

theorem nl_not_mem_toHex4 (n : Nat) : '\n' ∉ toHex4 n := by
  intro h
  simp [toHex4] at h
  rcases h with h | h | h | h <;> exact hexDigitChar_ne_nl _ h.symm

theorem nl_not_mem_escapeChar (c : Char) : '\n' ∉ escapeChar c := by
  unfold escapeChar
  split_ifs with h1 h2 h3 h4 h5 h6 h7 h8 h9
  · decide
  · decide
  · decide
  · decide
  · decide
  · decide
  · decide
  · simp only [List.mem_singleton]
    intro hh
    rw [← hh] at h8
    exact absurd h8.1 (by decide)
  · intro hh
    rcases List.mem_cons.mp hh with h | h
    · exact absurd h (by decide)
    rcases List.mem_cons.mp h with h | h
    · exact absurd h (by decide)
    · exact nl_not_mem_toHex4 _ h
  · intro hh
    rcases List.mem_append.mp hh with h | h <;>
      (rcases List.mem_cons.mp h with h | h
       · exact absurd h (by decide)
       rcases List.mem_cons.mp h with h | h
       · exact absurd h (by decide)
       · exact nl_not_mem_toHex4 _ h)

theorem nl_not_mem_dumpString (s : String) : '\n' ∉ dumpString s := by
  intro h
  unfold dumpString at h
  rcases List.mem_cons.mp h with h | h
  · exact absurd h (by decide)
  rcases List.mem_append.mp h with h | h
  · obtain ⟨l, hl, hmem⟩ := List.mem_flatten.mp h
    obtain ⟨c, _, rfl⟩ := List.mem_map.mp hl
    exact nl_not_mem_escapeChar c hmem
  · exact absurd (List.mem_singleton.mp h) (by decide)

theorem nl_not_mem_dumpJNum (n : JNum) : '\n' ∉ dumpJNum n := by
  cases n with
  | int m =>
      show '\n' ∉ intDigits m
      unfold intDigits
      split <;> intro hm
      · rcases List.mem_cons.mp hm with h | h
        · exact absurd h (by decide)
        · exact nl_not_mem_of_digits (natDigits_digits _) h
      · exact nl_not_mem_of_digits (natDigits_digits _) hm
  | dec m e =>
      intro hm
      simp only [dumpJNum] at hm
      rcases List.mem_append.mp hm with h | h
      · rcases List.mem_append.mp h with h | h
        · split at h
          · exact absurd (List.mem_singleton.mp h) (by decide)
          · exact absurd h (List.not_mem_nil _)
        · exact nl_not_mem_of_digits (natDigits_digits _) h
      · rcases List.mem_cons.mp h with h | h
        · exact absurd h (by decide)
        · exact nl_not_mem_of_digits (padZeros_digits _ _ (natDigits_digits _)) h

mutual

theorem nl_not_mem_dumpJson : ∀ (j : Json), '\n' ∉ dumpJson j
  | .null => by decide
  | .bool b => by cases b <;> decide
  | .num n => nl_not_mem_dumpJNum n
  | .str s => nl_not_mem_dumpString s
  | .arr xs => by
      intro hm
      rcases List.mem_cons.mp hm with h | h
      · exact absurd h (by decide)
      rcases List.mem_append.mp h with h | h
      · exact nl_not_mem_dumpElems xs h
      · exact absurd (List.mem_singleton.mp h) (by decide)
  | .obj kvs => by
      intro hm
      rcases List.mem_cons.mp hm with h | h
      · exact absurd h (by decide)
      rcases List.mem_append.mp h with h | h
      · exact nl_not_mem_dumpFields kvs h
      · exact absurd (List.mem_singleton.mp h) (by decide)
termination_by j => sizeOf j
decreasing_by all_goals (simp_wf; try omega)

theorem nl_not_mem_dumpElems : ∀ (xs : List Json), '\n' ∉ dumpElems xs
  | [] => List.not_mem_nil _
  | [x] => nl_not_mem_dumpJson x
  | x :: y :: xs => by
      intro hm
      rcases List.mem_append.mp hm with h | h
      · exact nl_not_mem_dumpJson x h
      rcases List.mem_cons.mp h with h | h
      · exact absurd h (by decide)
      · exact nl_not_mem_dumpElems (y :: xs) h
termination_by xs => sizeOf xs
decreasing_by all_goals (simp_wf; try omega)

theorem nl_not_mem_dumpFields : ∀ (kvs : List (String × Json)), '\n' ∉ dumpFields kvs
  | [] => List.not_mem_nil _
  | [(k, v)] => by
      intro hm
      rcases List.mem_append.mp hm with h | h
      · exact nl_not_mem_dumpString k h
      rcases List.mem_cons.mp h with h | h
      · exact absurd h (by decide)
      · exact nl_not_mem_dumpJson v h
  | (k, v) :: p :: kvs => by
      intro hm
      rcases List.mem_append.mp hm with h | h
      · rcases List.mem_append.mp h with h | h
        · exact nl_not_mem_dumpString k h
        rcases List.mem_cons.mp h with h | h
        · exact absurd h (by decide)
        · exact nl_not_mem_dumpJson v h
      · rcases List.mem_cons.mp h with h | h
        · exact absurd h (by decide)
        · exact nl_not_mem_dumpFields (p :: kvs) h
termination_by kvs => sizeOf kvs
decreasing_by all_goals (simp_wf; try omega)

end

/-! ## Splitting the log file back into its lines -/

theorem splitLinesGo_append : ∀ (l : List Char), '\n' ∉ l → ∀ (rest cur : List Char),
    splitLinesGo (l ++ '\n' :: rest) cur =
      (cur.reverse ++ l ++ ['\n']) :: splitLinesGo rest []
  | [], _, rest, cur => by simp [splitLinesGo]
  | c :: t, hl, rest, cur => by
      have hc : c ≠ '\n' := fun h => hl (h ▸ List.mem_cons_self c t)
      have ht : '\n' ∉ t := fun h => hl (List.mem_cons_of_mem c h)
      show splitLinesGo (c :: (t ++ '\n' :: rest)) cur = _
      rw [splitLinesGo, if_neg hc, splitLinesGo_append t ht rest (c :: cur)]
      simp

theorem splitLines_logFile : ∀ (js : List Json),
    splitLines ((js.map fun j => dumpJson j ++ ['\n']).flatten) =
      js.map fun j => dumpJson j ++ ['\n']
  | [] => rfl
  | j :: js => by
      show splitLinesGo ((dumpJson j ++ ['\n']) ++
        (js.map fun j => dumpJson j ++ ['\n']).flatten) [] = _
      rw [show (dumpJson j ++ ['\n']) ++ (js.map fun j => dumpJson j ++ ['\n']).flatten =
          dumpJson j ++ '\n' :: (js.map fun j => dumpJson j ++ ['\n']).flatten by simp]
      rw [splitLinesGo_append (dumpJson j) (nl_not_mem_dumpJson j) _ []]
      rw [show splitLinesGo ((js.map fun j => dumpJson j ++ ['\n']).flatten) [] =
          splitLines ((js.map fun j => dumpJson j ++ ['\n']).flatten) from rfl]
      rw [splitLines_logFile js]
      simp

theorem pyStrip_nonblank {c : Char} (hc : pyIsSpace c = false) (t : List Char) :
    pyStrip (String.mk (c :: t)) ≠ "" := by
  unfold pyStrip
  intro h
  have h2 : (((c :: t).dropWhile pyIsSpace).reverse.dropWhile pyIsSpace).reverse = [] :=
    congrArg String.data h
  rw [List.reverse_eq_nil_iff, List.dropWhile_cons, if_neg (by simp [hc])] at h2
  have h3 := List.dropWhile_eq_nil_iff.mp h2
  have h4 := h3 c (List.mem_reverse.mpr (List.mem_cons_self c t))
  rw [hc] at h4
  exact absurd h4 (by decide)

/-- A logged line, parsed by the aggregator's `json.loads`, yields the
value the logger serialised (the trailing newline is tolerated as JSON
whitespace). -/
theorem json_loads_line (j : Json) :
    json_loads (String.mk (dumpJson j ++ ['\n'])) = some j := by
  unfold json_loads
  rw [show (String.mk (dumpJson j ++ ['\n'])).data = dumpJson j ++ ['\n'] from rfl]
  rw [parseValue_dump j ((dumpJson j ++ ['\n']).length + 1) ['\n']
    (by rw [List.length_append]; omega) (numBoundary_cons '\n' rfl (by decide) [])]
  rfl

theorem mapM_loads (js : List Json) :
    mapOption (fun l => json_loads (String.mk l))
      (js.map fun j => dumpJson j ++ ['\n']) = some js := by
  induction js with
  | nil => rfl
  | cons j t ih => simp [mapOption, json_loads_line j, ih]

theorem readLog_flatten (js : List Json) :
    readLog ((js.map fun j => dumpJson j ++ ['\n']).flatten) = some js := by
  have hfil : ∀ l ∈ js.map (fun j => dumpJson j ++ ['\n']),
      (decide (pyStrip (String.mk l) ≠ "")) = true := by
    intro l hl
    obtain ⟨j, _, rfl⟩ := List.mem_map.mp hl
    obtain ⟨c, t2, hct, _, _, _, hsp⟩ := dumpJson_cons j
    rw [hct, decide_eq_true_eq]
    exact pyStrip_nonblank hsp (t2 ++ ['\n'])
  unfold readLog
  rw [splitLines_logFile js, List.filter_eq_self.mpr hfil]
  exact mapM_loads js

theorem readLog_offersFile (entries : List OfferLog) :
    readLog (offersFile entries) = some (entries.map OfferLog.toJson) := by
  unfold offersFile
  rw [show entries.map offerLine =
      (entries.map OfferLog.toJson).map (fun j => dumpJson j ++ ['\n']) by
    rw [List.map_map]; rfl]
  exact readLog_flatten _

theorem readLog_summariesFile (entries : List CallSummary) :
    readLog (summariesFile entries) = some (entries.map CallSummary.toJson) := by
  unfold summariesFile
  rw [show entries.map summaryLine =
      (entries.map CallSummary.toJson).map (fun j => dumpJson j ++ ['\n']) by
    rw [List.map_map]; rfl]
  exact readLog_flatten _

theorem mapM_decodeOffer (l : List OfferLog) :
    mapOption decodeOffer (l.map OfferLog.toJson) = some l := by
  induction l with
  | nil => rfl
  | cons a t ih => simp [mapOption, decodeOffer_toJson, ih]

theorem mapM_decodeSummary (l : List CallSummary) :
    mapOption decodeSummary (l.map CallSummary.toJson) = some l := by
  induction l with
  | nil => rfl
  | cons a t ih => simp [mapOption, decodeSummary_toJson, ih]

/-- C5: every offer-log entry and every call-summary entry — values
drawn from the declared field sets of `OfferLog` and `CallSummary` —
serialised to a compact JSON line as the logger does
(`json.dumps(body.dict(), separators=(",",":")) + "\n"`, lines 219 and
229) and read back as the aggregator does (iterate the file's lines,
keep the non-blank ones, `json.loads` each, lines 240 and 245),
reproduces the original field values exactly: the append-then-read
round trip is the identity on the declared fields, for whole logs at
once. -/
theorem C5_round_trip (offers : List OfferLog) (sums : List CallSummary) :
    (readLog (offersFile offers)).bind (mapOption decodeOffer) = some offers ∧
    (readLog (summariesFile sums)).bind (mapOption decodeSummary) = some sums := by
  constructor
  · rw [readLog_offersFile]
    exact mapM_decodeOffer offers
  · rw [readLog_summariesFile]
    exact mapM_decodeSummary sums

/-! ## Metrics aggregation (`metrics`, lines 235-271)

The endpoint reads both JSONL logs (empty on any error), groups offers
by `call_id` skipping entries whose `call_id` is falsy (lines 250-254),
takes `rounds = [len(v) for v in by_call.values()]` (line 255), and
counts summaries with `Counter`, substituting `"Other"` for a falsy
`outcome` and `"Neutral"` for a falsy `sentiment` (lines 257-258).
Entries are the parsed JSON objects (`o.get` presupposes dicts); dict
and `Counter` are insertion-ordered association lists, and
`sum(rounds)/len(rounds)` is exact rational division. -/

def addOffer (m : List (Json × List (List (String × Json)))) (cid : Json)
    (o : List (String × Json)) : List (Json × List (List (String × Json))) :=
  match m with
  | [] => [(cid, [o])]
  | (k, v) :: rest =>
      if k = cid then (k, v ++ [o]) :: rest else (k, v) :: addOffer rest cid o

def byCallStep (m : List (Json × List (List (String × Json))))
    (o : List (String × Json)) : List (Json × List (List (String × Json))) :=
  match jget o "call_id" with
  | none => m
  | some cid => if pyTruthy cid then addOffer m cid o else m

def by_call (offers : List (List (String × Json))) :
    List (Json × List (List (String × Json))) :=
  offers.foldl byCallStep []

def rounds (offers : List (List (String × Json))) : List Nat :=
  (by_call offers).map fun p => p.2.length

def avg_rounds (offers : List (List (String × Json))) : ℚ :=
  if rounds offers = [] then 0
  else ((rounds offers).sum : ℚ) / ((rounds offers).length : ℚ)

def counterAdd (m : List (Json × Nat)) (k : Json) : List (Json × Nat) :=
  match m with
  | [] => [(k, 1)]
  | (k2, n) :: rest =>
      if k2 = k then (k2, n + 1) :: rest else (k2, n) :: counterAdd rest k

def counter (l : List Json) : List (Json × Nat) := l.foldl counterAdd []

def counterGet (m : List (Json × Nat)) (k : Json) : Nat :=
  match m with
  | [] => 0
  | (k2, n) :: rest => if k2 = k then n else counterGet rest k

def outcomeKey (s : List (String × Json)) : Json :=
  match jget s "outcome" with
  | some v => if pyTruthy v then v else .str "Other"
  | none => .str "Other"

def sentimentKey (s : List (String × Json)) : Json :=
  match jget s "sentiment" with
  | some v => if pyTruthy v then v else .str "Neutral"
  | none => .str "Neutral"

def outcomes (summaries : List (List (String × Json))) : List (Json × Nat) :=
  counter (summaries.map outcomeKey)

def sentiments (summaries : List (List (String × Json))) : List (Json × Nat) :=
  counter (summaries.map sentimentKey)

/-- The aggregated quantities C4 speaks about, as the response dict
carries them (lines 260-271). -/
def metricsResult (offers summaries : List (List (String × Json))) :
    ℚ × List (Json × Nat) × List (Json × Nat) :=
  (avg_rounds offers, outcomes summaries, sentiments summaries)

/-- Whether an offer entry survives the `if not cid: continue` guard. -/
def keptOffer (o : List (String × Json)) : Bool :=
  match jget o "call_id" with
  | none => false
  | some cid => pyTruthy cid

def sumLens (m : List (Json × List (List (String × Json)))) : Nat :=
  (m.map fun p => p.2.length).sum

theorem addOffer_groups (m : List (Json × List (List (String × Json))))
    (cid : Json) (o : List (String × Json)) :
    sumLens (addOffer m cid o) = sumLens m + 1 ∧
    (∀ p ∈ addOffer m cid o, 1 ≤ p.2.length ∨ p ∈ m) := by
  induction m with
  | nil => exact ⟨rfl, by intro p hp; simp [addOffer] at hp; simp [hp]⟩
  | cons q rest ih =>
      obtain ⟨k, v⟩ := q
      unfold addOffer
      by_cases hk : k = cid
      · rw [if_pos hk]
        constructor
        · simp [sumLens]
          omega
        · intro p hp
          rcases List.mem_cons.mp hp with h | h
          · subst h
            left
            simp
          · right
            exact List.mem_cons_of_mem _ h
      · rw [if_neg hk]
        constructor
        · simp only [sumLens, List.map_cons, List.sum_cons] at ih ⊢
          omega
        · intro p hp
          rcases List.mem_cons.mp hp with h | h
          · subst h
            right
            exact List.mem_cons_self _ _
          · rcases ih.2 p h with h2 | h2
            · exact Or.inl h2
            · exact Or.inr (List.mem_cons_of_mem _ h2)

theorem byCallStep_none {o : List (String × Json)}
    (h : jget o "call_id" = none) (m : List (Json × List (List (String × Json)))) :
    byCallStep m o = m := by
  simp [byCallStep, h]

theorem byCallStep_kept {o : List (String × Json)} {cid : Json}
    (h : jget o "call_id" = some cid) (ht : pyTruthy cid = true)
    (m : List (Json × List (List (String × Json)))) :
    byCallStep m o = addOffer m cid o := by
  simp [byCallStep, h, ht]

theorem byCallStep_falsy {o : List (String × Json)} {cid : Json}
    (h : jget o "call_id" = some cid) (ht : pyTruthy cid = false)
    (m : List (Json × List (List (String × Json)))) :
    byCallStep m o = m := by
  simp [byCallStep, h, ht]

theorem by_call_invariant (offers : List (List (String × Json))) :
    ∀ m : List (Json × List (List (String × Json))),
    sumLens (offers.foldl byCallStep m) =
      sumLens m + (offers.filter keptOffer).length ∧
    (∀ p ∈ offers.foldl byCallStep m, 1 ≤ p.2.length ∨ p ∈ m) := by
  induction offers with
  | nil => intro m; exact ⟨by simp, fun p hp => Or.inr hp⟩
  | cons o rest ih =>
      intro m
      rw [List.foldl_cons, List.filter_cons]
      rcases hcid : jget o "call_id" with _ | cid
      · have hko : keptOffer o = false := by simp [keptOffer, hcid]
        rw [hko, byCallStep_none hcid m]
        simp only [Bool.false_eq_true, if_false]
        exact ih m
      · by_cases ht : pyTruthy cid = true
        · have hko : keptOffer o = true := by simp [keptOffer, hcid, ht]
          rw [hko, byCallStep_kept hcid ht m, if_pos rfl]
          constructor
          · rw [(ih (addOffer m cid o)).1, (addOffer_groups m cid o).1]
            simp
            omega
          · intro p hp
            rcases (ih (addOffer m cid o)).2 p hp with h | h
            · exact Or.inl h
            · rcases (addOffer_groups m cid o).2 p h with h2 | h2
              · exact Or.inl h2
              · exact Or.inr h2
        · have ht2 : pyTruthy cid = false := by
            cases h2 : pyTruthy cid
            · rfl
            · exact absurd h2 ht
          have hko : keptOffer o = false := by simp [keptOffer, hcid, ht2]
          rw [hko, byCallStep_falsy hcid ht2 m]
          simp only [Bool.false_eq_true, if_false]
          exact ih m

theorem counterGet_counterAdd (m : List (Json × Nat)) (k k2 : Json) :
    counterGet (counterAdd m k) k2 =
      counterGet m k2 + (if k = k2 then 1 else 0) := by
  induction m with
  | nil =>
      unfold counterAdd counterGet
      by_cases h : k = k2 <;> simp [h, counterGet]
  | cons q rest ih =>
      obtain ⟨kq, n⟩ := q
      unfold counterAdd
      by_cases hq : kq = k
      · rw [if_pos hq]
        unfold counterGet
        by_cases h2 : kq = k2
        · rw [if_pos h2, if_pos h2, if_pos (hq ▸ h2)]
        · rw [if_neg h2, if_neg h2, if_neg (hq ▸ h2)]
          omega
      · rw [if_neg hq]
        unfold counterGet
        by_cases h2 : kq = k2
        · rw [if_pos h2, if_pos h2]
          rw [if_neg (fun he => hq (h2.trans he.symm))]
          omega
        · rw [if_neg h2, if_neg h2, ih]

theorem counterGet_counter (l : List Json) (k : Json) :
    counterGet (counter l) k = l.count k := by
  suffices h : ∀ m, counterGet (l.foldl counterAdd m) k = counterGet m k + l.count k by
    unfold counter
    rw [h []]
    simp [counterGet]
  induction l with
  | nil => intro m; simp [counterGet]
  | cons a t ih =>
      intro m
      rw [List.foldl_cons, ih (counterAdd m a), counterGet_counterAdd]
      rw [List.count_cons]
      by_cases ha : a = k
      · rw [if_pos ha]
        simp [ha]
        omega
      · rw [if_neg ha]
        simp [ha]

/-- C4: the metrics aggregation (lines 235-271) computes the mean round
count only over calls that have at least one logged offer — every group
in `by_call` is non-empty, the rounds sum to exactly the offers whose
`call_id` is truthy, the average is 0 when no call qualifies and
otherwise satisfies mean × count = sum — counts a summary entry lacking
`outcome` under `"Other"` and one lacking `sentiment` under `"Neutral"`
(counter values equal occurrence counts of the substituted keys); and on
a missing offers log plus exactly one summary entry lacking both
fields, the result is avg_rounds = 0, outcomes = \x7b"Other": 1\x7d,
sentiments = \x7b"Neutral": 1\x7d. -/
theorem C4_metrics (offers summaries : List (List (String × Json)))
    (s0 : List (String × Json)) (ho : jget s0 "outcome" = none)
    (hs : jget s0 "sentiment" = none) :
    (∀ p ∈ by_call offers, 1 ≤ p.2.length) ∧
    (rounds offers).sum = (offers.filter keptOffer).length ∧
    (rounds offers = [] → avg_rounds offers = 0) ∧
    (rounds offers ≠ [] →
      avg_rounds offers * ((rounds offers).length : ℚ) = ((rounds offers).sum : ℚ)) ∧
    outcomeKey s0 = .str "Other" ∧
    sentimentKey s0 = .str "Neutral" ∧
    (∀ k, counterGet (outcomes summaries) k = (summaries.map outcomeKey).count k) ∧
    (∀ k, counterGet (sentiments summaries) k = (summaries.map sentimentKey).count k) ∧
    readLogOrEmpty none = [] ∧
    metricsResult [] [s0] = (0, [(.str "Other", 1)], [(.str "Neutral", 1)]) := by
  refine ⟨?_, ?_, ?_, ?_, ?_, ?_, ?_, ?_, rfl, ?_⟩
  · intro p hp
    rcases (by_call_invariant offers []).2 p hp with h | h
    · exact h
    · exact absurd h (List.not_mem_nil p)
  · have h1 := (by_call_invariant offers []).1
    simpa [sumLens, rounds, by_call] using h1
  · intro h
    simp [avg_rounds, h]
  · intro h
    rw [avg_rounds, if_neg h]
    have hl : ((rounds offers).length : ℚ) ≠ 0 := by
      simp only [ne_eq, Nat.cast_eq_zero, List.length_eq_zero]
      exact h
    rw [div_mul_cancel₀ _ hl]
  · simp [outcomeKey, ho]
  · simp [sentimentKey, hs]
  · intro k
    exact counterGet_counter _ k
  · intro k
    exact counterGet_counter _ k
  · simp [metricsResult, avg_rounds, rounds, by_call, outcomes, sentiments,
      counter, counterAdd, outcomeKey, sentimentKey, ho, hs]

theorem C4_metrics_witness :
    jget ([] : List (String × Json)) "outcome" = none ∧
    jget ([] : List (String × Json)) "sentiment" = none ∧
    metricsResult [] [[]] = (0, [(.str "Other", 1)], [(.str "Neutral", 1)]) :=
  ⟨rfl, rfl, (C4_metrics [] [] [] rfl rfl).2.2.2.2.2.2.2.2.2⟩

/-! ## Record-store loading (`_load_file_rows`, lines 61-72, and the
`LOADS` fallback, lines 74-109)

`_load_file_rows` dispatches on `path.lower().endswith(...)`: a `.json`
path is opened (raising `FileNotFoundError` when absent, modelled as
`content = none`) and `json.load`-ed, requiring a top-level array; a
`.csv` path goes through `csv.DictReader` (modelled for the simple
comma-separated form without quoting or short-row padding, which the
claim does not touch); any other path raises `RuntimeError`.  The
module-level `try/except Exception` (lines 74-78) replaces any failure
by the two hardcoded demo records. -/

def pyEndsWith (s suffix : String) : Bool := decide (suffix.data <:+ s.data)

def splitFieldsGo : List Char → List (List Char)
  | [] => [[]]
  | c :: rest =>
      match splitFieldsGo rest with
      | [] => [[c]]
      | f :: fs => if c = ',' then [] :: f :: fs else (c :: f) :: fs

def dropNl (l : List Char) : List Char :=
  if l.getLast? = some '\n' then l.dropLast else l

def csvRows (content : List Char) : List Json :=
  match splitLines content with
  | [] => []
  | header :: rows =>
      let keys := (splitFieldsGo (dropNl header)).map String.mk
      rows.map fun r =>
        .obj (keys.zip ((splitFieldsGo (dropNl r)).map fun f => Json.str (String.mk f)))

def _load_file_rows (path : String) (content : Option String) :
    Except String (List Json) :=
  if pyEndsWith (pyLower path) ".json" then
    match content with
    | none => .error "FileNotFoundError"
    | some c =>
        match json_loads c with
        | none => .error "json.JSONDecodeError"
        | some (.arr rows) => .ok rows
        | some _ => .error "loads.json must contain a JSON array"
  else if pyEndsWith (pyLower path) ".csv" then
    match content with
    | none => .error "FileNotFoundError"
    | some c => .ok (csvRows c.data)
  else .error "LOADS_PATH must be .json or .csv"

/-- The first hardcoded demo record (lines 79-93). -/
def demoRow1 : Json :=
  .obj [("load_id", .str "L-1001"), ("origin", .str "Chicago, IL"),
        ("destination", .str "Dallas, TX"),
        ("pickup_datetime", .str "2025-09-08T08:00:00-05:00"),
        ("delivery_datetime", .str "2025-09-09T16:00:00-05:00"),
        ("equipment_type", .str "Dry Van"), ("loadboard_rate", .num (.int 1450)),
        ("notes", .str "No pallet exchange"), ("weight", .num (.int 30000)),
        ("commodity_type", .str "Paper"), ("num_of_pieces", .num (.int 20)),
        ("miles", .num (.int 976)), ("dimensions", .str "48x102")]

/-- The second hardcoded demo record (lines 94-108). -/
def demoRow2 : Json :=
  .obj [("load_id", .str "L-1002"), ("origin", .str "Atlanta, GA"),
        ("destination", .str "Orlando, FL"),
        ("pickup_datetime", .str "2025-09-08T07:00:00-05:00"),
        ("delivery_datetime", .str "2025-09-08T17:00:00-05:00"),
        ("equipment_type", .str "Reefer"), ("loadboard_rate", .num (.int 900)),
        ("notes", .str "Keep at 36F"), ("weight", .num (.int 25000)),
        ("commodity_type", .str "Produce"), ("num_of_pieces", .num (.int 12)),
        ("miles", .num (.int 438)), ("dimensions", .str "53x102")]

/-- `LOADS` after the module-level `try/except` (lines 74-109). -/
def LOADS_init (path : String) (content : Option String) : List Json :=
  match _load_file_rows path content with
  | .ok rows => rows
  | .error _ => [demoRow1, demoRow2]

/-- C8: loading errors for a path ending in neither `.json` nor `.csv`
and for a `.json` file whose top-level value is not an array; and every
loading failure — missing file, parse error, schema error, whatever the
message — initialises the store to exactly the two hardcoded demo
records instead of surfacing the error, while a successful load is used
as-is. -/
theorem C8_loading (path : String) (content : Option String) (c : String) :
    (pyEndsWith (pyLower path) ".json" = false →
      pyEndsWith (pyLower path) ".csv" = false →
      _load_file_rows path content = .error "LOADS_PATH must be .json or .csv") ∧
    (pyEndsWith (pyLower path) ".json" = true →
      ∀ j, json_loads c = some j → (∀ rows, j ≠ .arr rows) →
      _load_file_rows path (some c) = .error "loads.json must contain a JSON array") ∧
    (∀ e, _load_file_rows path content = .error e →
      LOADS_init path content = [demoRow1, demoRow2]) ∧
    (∀ rows, _load_file_rows path content = .ok rows →
      LOADS_init path content = rows) := by
  refine ⟨?_, ?_, ?_, ?_⟩
  · intro h1 h2
    unfold _load_file_rows
    rw [h1, h2]
    simp
  · intro h1 j hj hne
    unfold _load_file_rows
    rw [h1]
    simp only [if_true]
    rw [hj]
    cases j with
    | arr rows => exact absurd rfl (hne rows)
    | null => rfl
    | bool b => rfl
    | num n => rfl
    | str s => rfl
    | obj f => rfl
  · intro e he
    unfold LOADS_init
    rw [he]
  · intro rows hr
    unfold LOADS_init
    rw [hr]

theorem C8_loading_witness :
    _load_file_rows "loads.txt" none = .error "LOADS_PATH must be .json or .csv" ∧
    _load_file_rows "loads.json" (some "\x7b\x7d") =
      .error "loads.json must contain a JSON array" ∧
    LOADS_init "loads.txt" none = [demoRow1, demoRow2] := by
  refine ⟨?_, ?_, ?_⟩
  · exact (C8_loading "loads.txt" none "").1 (by decide) (by decide)
  · exact (C8_loading "loads.json" none "\x7b\x7d").2.1 (by decide) (.obj []) (by rfl)
      (fun rows h => Json.noConfusion h)
  · exact (C8_loading "loads.txt" none "").2.2.1 "LOADS_PATH must be .json or .csv"
      ((C8_loading "loads.txt" none "").1 (by decide) (by decide))

/-! ## The filter as an imperative loop over a heap of records (C9)

Python dicts are mutable heap objects: `LOADS` is a list of references,
`dict(r)` (line 131) allocates a shallow copy, and
`r2["loadboard_rate"] = float(...)` (line 133) writes through the copy's
reference only.  The heap maps references to record values; `alloc`
returns a fresh reference, `write` updates one reference. -/

structure Heap where
  next : Nat
  mem : Nat → LoadRecord

def Heap.alloc (h : Heap) (v : LoadRecord) : Nat × Heap :=
  (h.next, ⟨h.next + 1, fun r => if r = h.next then v else h.mem r⟩)

def Heap.write (h : Heap) (r : Nat) (v : LoadRecord) : Heap :=
  ⟨h.next, fun r2 => if r2 = r then v else h.mem r2⟩

/-- One iteration of the loop body (lines 121-136): test the record
behind `r`; on a match allocate the shallow copy `r2 = dict(r)`, coerce
the copy's rate in place, and append the copy's reference to `out`. -/
def filterStep (oc os dc ds : String) (pd : Option String) (et : String)
    (st : Heap × List Nat) (r : Nat) : Heap × List Nat :=
  if matchRow oc os dc ds pd et (st.1.mem r) then
    let a := st.1.alloc (st.1.mem r)
    (a.2.write a.1 (coerceRate (a.2.mem a.1)), st.2 ++ [a.1])
  else st

/-- The imperative filter: normalise the five criteria (line 119), then
fold the loop body over the store's references with an empty `out`. -/
def _filter_loads_heap (origin_city origin_state destination_city destination_state
    pickup_date equipment_type : Option String) (h : Heap) (loads : List Nat) :
    Heap × List Nat :=
  loads.foldl
    (filterStep (_norm origin_city) (_norm origin_state) (_norm destination_city)
      (_norm destination_state) pickup_date (_norm equipment_type))
    (h, [])

theorem filterStep_match {oc os dc ds : String} {pd : Option String} {et : String}
    {h : Heap} {acc : List Nat} {r : Nat}
    (hm : matchRow oc os dc ds pd et (h.mem r) = true) :
    filterStep oc os dc ds pd et (h, acc) r =
      (⟨h.next + 1, fun x => if x = h.next then coerceRate (h.mem r) else h.mem x⟩,
       acc ++ [h.next]) := by
  unfold filterStep Heap.alloc Heap.write
  rw [if_pos hm]
  dsimp only
  congr 1
  congr 1
  funext x
  by_cases hx : x = h.next
  · rw [if_pos hx, if_pos hx]
    simp
  · rw [if_neg hx, if_neg hx, if_neg hx]

theorem filterStep_nomatch {oc os dc ds : String} {pd : Option String} {et : String}
    {h : Heap} {acc : List Nat} {r : Nat}
    (hm : matchRow oc os dc ds pd et (h.mem r) = false) :
    filterStep oc os dc ds pd et (h, acc) r = (h, acc) := by
  unfold filterStep
  rw [if_neg (by simp [hm])]

theorem filterFold_spec (oc os dc ds : String) (pd : Option String) (et : String) :
    ∀ (loads : List Nat) (h : Heap) (acc : List Nat),
    (∀ x ∈ loads, x < h.next) → (∀ x ∈ acc, x < h.next) →
    h.next ≤ ((loads.foldl (filterStep oc os dc ds pd et) (h, acc)).1).next ∧
    (∀ x, x < h.next →
      (loads.foldl (filterStep oc os dc ds pd et) (h, acc)).1.mem x = h.mem x) ∧
    (∀ x ∈ (loads.foldl (filterStep oc os dc ds pd et) (h, acc)).2,
      x ∈ acc ∨ h.next ≤ x) ∧
    (loads.foldl (filterStep oc os dc ds pd et) (h, acc)).2.map
        (loads.foldl (filterStep oc os dc ds pd et) (h, acc)).1.mem =
      acc.map h.mem ++
        ((loads.map h.mem).filter (matchRow oc os dc ds pd et)).map coerceRate
  | [], h, acc, _, _ => by
      refine ⟨le_refl _, fun x _ => rfl, fun x hx => Or.inl hx, ?_⟩
      simp
  | r :: rest, h, acc, hload, hacc => by
      rw [List.foldl_cons]
      have hr : r < h.next := hload r (List.mem_cons_self r rest)
      by_cases hm : matchRow oc os dc ds pd et (h.mem r) = true
      · rw [filterStep_match hm]
        have key : ∀ h2 : Heap, h2.next = h.next + 1 →
            (∀ x, h2.mem x = if x = h.next then coerceRate (h.mem r) else h.mem x) →
            h.next ≤ ((rest.foldl (filterStep oc os dc ds pd et)
              (h2, acc ++ [h.next])).1).next ∧
            (∀ x, x < h.next →
              (rest.foldl (filterStep oc os dc ds pd et)
                (h2, acc ++ [h.next])).1.mem x = h.mem x) ∧
            (∀ x ∈ (rest.foldl (filterStep oc os dc ds pd et)
                (h2, acc ++ [h.next])).2, x ∈ acc ∨ h.next ≤ x) ∧
            (rest.foldl (filterStep oc os dc ds pd et) (h2, acc ++ [h.next])).2.map
                (rest.foldl (filterStep oc os dc ds pd et)
                  (h2, acc ++ [h.next])).1.mem =
              acc.map h.mem ++
                (((r :: rest).map h.mem).filter (matchRow oc os dc ds pd et)).map
                  coerceRate := by
          intro h2 hn hm2
          obtain ⟨ih1, ih2, ih3, ih4⟩ := filterFold_spec oc os dc ds pd et rest h2
            (acc ++ [h.next])
            (fun x hx => by
              rw [hn]
              exact Nat.lt_succ_of_lt (hload x (List.mem_cons_of_mem r hx)))
            (fun x hx => by
              rw [hn]
              rcases List.mem_append.mp hx with h1 | h1
              · exact Nat.lt_succ_of_lt (hacc x h1)
              · rw [List.mem_singleton.mp h1]
                exact Nat.lt_succ_self _)
          refine ⟨?_, ?_, ?_, ?_⟩
          · calc h.next ≤ h2.next := by rw [hn]; exact Nat.le_succ _
              _ ≤ _ := ih1
          · intro x hx
            rw [ih2 x (by rw [hn]; exact Nat.lt_succ_of_lt hx), hm2 x,
              if_neg (Nat.ne_of_lt hx)]
          · intro x hx
            rcases ih3 x hx with h1 | h1
            · rcases List.mem_append.mp h1 with h2a | h2a
              · exact Or.inl h2a
              · rw [List.mem_singleton.mp h2a]
                exact Or.inr (le_refl _)
            · rw [hn] at h1
              exact Or.inr (Nat.le_of_succ_le h1)
          · have haccm : acc.map h2.mem = acc.map h.mem :=
              List.map_congr_left fun x hx => by
                rw [hm2 x, if_neg (Nat.ne_of_lt (hacc x hx))]
            have hrestm : rest.map h2.mem = rest.map h.mem :=
              List.map_congr_left fun x hx => by
                rw [hm2 x,
                  if_neg (Nat.ne_of_lt (hload x (List.mem_cons_of_mem r hx)))]
            have htop : h2.mem h.next = coerceRate (h.mem r) := by
              rw [hm2 h.next, if_pos rfl]
            rw [ih4, List.map_append, haccm, hrestm]
            simp [htop, hm]
        exact key ⟨h.next + 1,
          fun x => if x = h.next then coerceRate (h.mem r) else h.mem x⟩ rfl
          (fun x => rfl)
      · rw [filterStep_nomatch (Bool.eq_false_iff.mpr hm)]
        obtain ⟨ih1, ih2, ih3, ih4⟩ :=
          filterFold_spec oc os dc ds pd et rest h acc
            (fun x hx => hload x (List.mem_cons_of_mem r hx)) hacc
        refine ⟨ih1, ih2, ih3, ?_⟩
        rw [ih4, List.map_cons, List.filter_cons, if_neg hm]

/-- C9: running the filter over the heap leaves the record store
unchanged — every pre-existing heap object, in particular every record
the store's references point to, holds its original value afterwards;
every reference the filter returns is a fresh shallow copy, never one
of the store's; and the pure filter of C1-C3 computes exactly the
sorted, truncated view of those copies, so the numeric coercion of
`loadboard_rate` never mutates the shared store. -/
theorem C9_no_mutation (origin_city origin_state destination_city destination_state
    pickup_date equipment_type : Option String) (h : Heap) (loads : List Nat)
    (hl : ∀ x ∈ loads, x < h.next) :
    (∀ x, x < h.next →
      (_filter_loads_heap origin_city origin_state destination_city destination_state
        pickup_date equipment_type h loads).1.mem x = h.mem x) ∧
    (∀ x ∈ loads,
      (_filter_loads_heap origin_city origin_state destination_city destination_state
        pickup_date equipment_type h loads).1.mem x = h.mem x) ∧
    (∀ x ∈ (_filter_loads_heap origin_city origin_state destination_city
        destination_state pickup_date equipment_type h loads).2, x ∉ loads) ∧
    _filter_loads (loads.map h.mem) origin_city origin_state destination_city
        destination_state pickup_date equipment_type =
      (((_filter_loads_heap origin_city origin_state destination_city
            destination_state pickup_date equipment_type h loads).2.map
          (_filter_loads_heap origin_city origin_state destination_city
            destination_state pickup_date equipment_type h loads).1.mem).insertionSort
        (rankLE (_norm equipment_type))).take 3 := by
  obtain ⟨h1, h2, h3, h4⟩ := filterFold_spec (_norm origin_city) (_norm origin_state)
    (_norm destination_city) (_norm destination_state) pickup_date
    (_norm equipment_type) loads h [] hl (fun x hx => absurd hx (List.not_mem_nil x))
  refine ⟨?_, ?_, ?_, ?_⟩
  · intro x hx
    exact h2 x hx
  · intro x hx
    exact h2 x (hl x hx)
  · intro x hx hmem
    rcases h3 x hx with h5 | h5
    · exact absurd h5 (List.not_mem_nil x)
    · exact absurd (hl x hmem) (by omega)
  · show _filter_loads (loads.map h.mem) origin_city origin_state destination_city
        destination_state pickup_date equipment_type = _
    rw [show (_filter_loads_heap origin_city origin_state destination_city
        destination_state pickup_date equipment_type h loads) =
      loads.foldl (filterStep (_norm origin_city) (_norm origin_state)
        (_norm destination_city) (_norm destination_state) pickup_date
        (_norm equipment_type)) (h, []) from rfl]
    rw [h4]
    rfl

theorem C9_no_mutation_witness :
    (∀ x ∈ [0], x < (⟨1, fun _ => demoLoad1⟩ : Heap).next) ∧
    (_filter_loads_heap none none none none none none
      ⟨1, fun _ => demoLoad1⟩ [0]).1.mem 0 = demoLoad1 :=
  ⟨by decide,
   (C9_no_mutation none none none none none none ⟨1, fun _ => demoLoad1⟩ [0]
     (by decide)).2.1 0 (List.mem_singleton.mpr rfl)⟩

end CarrierBackend
